import Mathlib

/-!
Verification development for the Botter repository.

The embedding covers, from `src/Models/Library.py`, the library codec:
`Library.__init__`, `Library.create_library` (the encoder) and
`Library.load_library` (the decoder), and from `src/CreateView.py` the
capture-loop handlers `onclicked_start` / `onclicked_stop`.

Artifacts are modelled as lists of lines, each line carrying its trailing
newline character, exactly as Python's `readlines` yields them.  Python
character-level operations (`line[:3]`, `line[4:]`, `len(line)`) are modelled
on `String.data`, since Python slicing is character based.

`ast.literal_eval` and `eval` on metadata payloads are modelled by a small
character-level parser and evaluator covering the value grammar reachable in
this artifact format: `None` / `True` / `False`, integers, single-quoted
strings without escape sequences, flat lists of such scalars, one-level
dictionaries, and constructor-call expressions `Name(arg, ...)`.  In the
decoder's environment the only meaningfully callable name is `BoxFunction`,
so evaluation of a call is defined for that constructor and fails (as the
corresponding Python exception would) for anything else.  `literalEval`
(modelling `ast.literal_eval`) additionally rejects every expression that is
a call, mirroring `ast.literal_eval`'s rejection of `Call` nodes.
-/

/-- Single-quote character, written by code point to keep source plain. -/
def squoteC : Char := Char.ofNat 39

/-- Backslash character. -/
def bslashC : Char := Char.ofNat 92

/-- Newline character. -/
def nlC : Char := Char.ofNat 10

/-- Carriage-return character. -/
def crC : Char := Char.ofNat 13

/-- Opening curly brace character. -/
def obraceC : Char := Char.ofNat 123

/-- Closing curly brace character. -/
def cbraceC : Char := Char.ofNat 125

/-- Python identifier characters (ASCII letters, digits, underscore). -/
def isIdentChar (c : Char) : Bool := c.isAlpha || c.isDigit || c = '_'

/-- Characters that can sit inside a single-quoted Python string literal and
be read back verbatim by a parser without escape handling: anything except a
quote, a backslash, or a line break. -/
def safeChar (c : Char) : Bool := !(c = squoteC || c = bslashC || c = nlC || c = crC)

/-- A string of `safeChar`s: such strings round-trip through the single-quoted
literals the encoder emits. -/
def safeStr (s : String) : Bool := s.data.all safeChar

/-- Scalar Python values appearing in metadata payloads. -/
inductive PyScalar where
  | pnone : PyScalar
  | pbool (b : Bool) : PyScalar
  | pint (n : Int) : PyScalar
  | pstr (s : String) : PyScalar
deriving DecidableEq, Repr

/-- Terms: a scalar or a flat list of scalars (the shapes reachable in this
artifact format: boxes and capture regions are lists of numbers). -/
inductive PyTerm where
  | atom (a : PyScalar) : PyTerm
  | lst (xs : List PyScalar) : PyTerm
deriving DecidableEq, Repr

/-- Expressions a metadata payload can parse to: a term, a one-level
dictionary, or a constructor-call expression (only `eval` accepts calls). -/
inductive PyExpr where
  | term (t : PyTerm) : PyExpr
  | dict (kvs : List (PyScalar × PyTerm)) : PyExpr
  | call (f : String) (args : List PyTerm) : PyExpr
deriving DecidableEq, Repr

/-- Values produced by evaluating a payload: a term, a dictionary, or a
`BoxFunction` object (the result of `eval` on the constructor call the
encoder writes into function-level metadata lines). -/
inductive PyVal where
  | term (t : PyTerm) : PyVal
  | pdict (kvs : List (PyScalar × PyTerm)) : PyVal
  | pboxfn (name kind box image : PyTerm) : PyVal
deriving DecidableEq, Repr

/-- Decimal digits of a natural number, most significant first.  The first
argument is fuel; `natDigits` supplies enough for any input. -/
def natDigitsAux : Nat → Nat → List Char
  | 0, _ => []
  | fuel + 1, n =>
    if n < 10 then [Nat.digitChar n]
    else natDigitsAux fuel (n / 10) ++ [Nat.digitChar (n % 10)]

/-- Decimal digits of a natural number, most significant first. -/
def natDigits (n : Nat) : List Char := natDigitsAux (n + 1) n

/-- Decimal representation of a natural number as a string. -/
def natRepr (n : Nat) : String := ⟨natDigits n⟩

/-- Python `str()` of an integer. -/
def intRepr (n : Int) : String :=
  if n < 0 then ⟨'-' :: natDigits n.natAbs⟩ else ⟨natDigits n.natAbs⟩

/-- Python `str()` of a scalar. -/
def scalarRepr : PyScalar → String
  | .pnone => "None"
  | .pbool true => "True"
  | .pbool false => "False"
  | .pint n => intRepr n
  | .pstr s => "'" ++ s ++ "'"

/-- Comma-and-space separated renderings of a list of scalars, as Python's
`str()` of a list renders its elements. -/
def scalarListBody : List PyScalar → String
  | [] => ""
  | [a] => scalarRepr a
  | a :: b :: t => scalarRepr a ++ ", " ++ scalarListBody (b :: t)

/-- Python `str()` of a list of integers, e.g. `[1, 2, 3, 4]`. -/
def intListRepr (xs : List Int) : String :=
  "[" ++ scalarListBody (xs.map .pint) ++ "]"

/-- Python `str()` of a term. -/
def termRepr : PyTerm → String
  | .atom a => scalarRepr a
  | .lst xs => "[" ++ scalarListBody xs ++ "]"

/-- Comma-and-space separated renderings of a list of terms (call-argument
lists as the encoder formats them). -/
def argsBody : List PyTerm → String
  | [] => ""
  | [t] => termRepr t
  | t :: u :: r => termRepr t ++ ", " ++ argsBody (u :: r)

/-- Comma-and-space separated renderings of key-value pairs, as Python
renders a dict literal body. -/
def kvsBody : List (PyScalar × PyTerm) → String
  | [] => ""
  | [(k, v)] => scalarRepr k ++ ": " ++ termRepr v
  | (k, v) :: p :: r => scalarRepr k ++ ": " ++ termRepr v ++ ", " ++ kvsBody (p :: r)

/-- Scalars whose rendering a parser without escape handling reads back. -/
def scalarSafe : PyScalar → Bool
  | .pstr s => safeStr s
  | _ => true

/-- Terms whose rendering reads back verbatim. -/
def termSafe : PyTerm → Bool
  | .atom a => scalarSafe a
  | .lst xs => xs.all scalarSafe

/-- The term the `screen_box` argument denotes in the class-level payload. -/
def sbTerm : Option (List Int) → PyTerm
  | none => .atom .pnone
  | some l => .lst (l.map .pint)

/-- Rendering of the `screen_box` argument by `"{}".format(screen_box)`:
the box is either absent (`None`) or a list of integers. -/
def strOfSB : Option (List Int) → String
  | none => "None"
  | some l => intListRepr l

/-- Rendering of a rule's `image` field by `"{}".format(function.image)`:
`None` renders as `None`, a path string is inserted verbatim (unquoted). -/
def strOfImage : Option String → String
  | none => "None"
  | some s => s

/-- Python truthiness of the `screen_box` value (`if screen_box:`): `None`
and the empty list are falsy. -/
def pyTruthySB : Option (List Int) → Bool
  | none => false
  | some l => !l.isEmpty

/-- Drop leading spaces (the only intra-line whitespace these payloads use). -/
def skipWs (cs : List Char) : List Char := cs.dropWhile (fun c => c = ' ')

/-- Value of a digit string, most significant digit first. -/
def digitsToNat (ds : List Char) : Nat := ds.foldl (fun a c => a * 10 + (c.toNat - 48)) 0

/-- Parse a nonempty run of decimal digits. -/
def parseNat (cs : List Char) : Option (Nat × List Char) :=
  let ds := cs.takeWhile Char.isDigit
  if ds.isEmpty then none else some (digitsToNat ds, cs.dropWhile Char.isDigit)

/-- Parse one scalar: a single-quoted string (no escape handling), an
optionally negated integer, or one of the keyword literals.  A bare
identifier that is not a keyword fails, as the corresponding Python name
lookup would during decoding. -/
def parseAtom (cs : List Char) : Option (PyScalar × List Char) :=
  match cs with
  | [] => none
  | c :: cs' =>
    if c = squoteC then
      match cs'.dropWhile (fun d => !(d = squoteC)) with
      | _ :: rest => some (.pstr ⟨cs'.takeWhile (fun d => !(d = squoteC))⟩, rest)
      | [] => none
    else if c = '-' then
      match parseNat cs' with
      | some (n, rest) => some (.pint (-(n : Int)), rest)
      | none => none
    else if c.isDigit then
      match parseNat cs with
      | some (n, rest) => some (.pint (n : Int), rest)
      | none => none
    else
      let id := cs.takeWhile isIdentChar
      let rest := cs.dropWhile isIdentChar
      if id = "None".data then some (.pnone, rest)
      else if id = "True".data then some (.pbool true, rest)
      else if id = "False".data then some (.pbool false, rest)
      else none

/-- Parse comma-separated scalars up to a closing square bracket. -/
def parseScalars : Nat → List Char → Option (List PyScalar × List Char)
  | 0, _ => none
  | fuel + 1, cs =>
    match skipWs cs with
    | ']' :: rest => some ([], rest)
    | cs' =>
      match parseAtom cs' with
      | none => none
      | some (a, cs₁) =>
        match skipWs cs₁ with
        | ',' :: cs₂ =>
          match parseScalars fuel cs₂ with
          | some (xs, r) => some (a :: xs, r)
          | none => none
        | ']' :: rest => some ([a], rest)
        | _ => none

/-- Parse a term: a bracketed list of scalars or a single scalar. -/
def parseTerm (cs : List Char) : Option (PyTerm × List Char) :=
  match skipWs cs with
  | '[' :: cs' =>
    match parseScalars (cs'.length + 1) cs' with
    | some (xs, r) => some (.lst xs, r)
    | none => none
  | cs' =>
    match parseAtom cs' with
    | some (a, r) => some (.atom a, r)
    | none => none

/-- Parse comma-separated terms up to a closing parenthesis (call arguments). -/
def parseTerms : Nat → List Char → Option (List PyTerm × List Char)
  | 0, _ => none
  | fuel + 1, cs =>
    match skipWs cs with
    | ')' :: rest => some ([], rest)
    | cs' =>
      match parseTerm cs' with
      | none => none
      | some (t, cs₁) =>
        match skipWs cs₁ with
        | ',' :: cs₂ =>
          match parseTerms fuel cs₂ with
          | some (ts, r) => some (t :: ts, r)
          | none => none
        | ')' :: rest => some ([t], rest)
        | _ => none

/-- Parse key-value pairs up to a closing curly brace. -/
def parseKVs : Nat → List Char → Option (List (PyScalar × PyTerm) × List Char)
  | 0, _ => none
  | fuel + 1, cs =>
    match skipWs cs with
    | [] => none
    | c :: rest =>
      if c = cbraceC then some ([], rest)
      else
        match parseAtom (c :: rest) with
        | none => none
        | some (k, cs₁) =>
          match skipWs cs₁ with
          | ':' :: cs₂ =>
            match parseTerm cs₂ with
            | none => none
            | some (v, cs₃) =>
              match skipWs cs₃ with
              | [] => none
              | d :: cs₄ =>
                if d = ',' then
                  match parseKVs fuel cs₄ with
                  | some (kvs, r) => some ((k, v) :: kvs, r)
                  | none => none
                else if d = cbraceC then some ([(k, v)], cs₄)
                else none
          | _ => none

/-- Parse one expression: a dictionary, a call `Ident(...)`, or a term. -/
def parseExprCore (cs : List Char) : Option (PyExpr × List Char) :=
  match skipWs cs with
  | [] => none
  | c :: rest =>
    if c = obraceC then
      match parseKVs (rest.length + 1) rest with
      | some (kvs, r) => some (.dict kvs, r)
      | none => none
    else
      let id := (c :: rest).takeWhile isIdentChar
      let rest' := (c :: rest).dropWhile isIdentChar
      if !id.isEmpty && !(id = "None".data) && !(id = "True".data) && !(id = "False".data)
          && isIdentChar c then
        match rest' with
        | '(' :: cs₂ =>
          match parseTerms (cs₂.length + 1) cs₂ with
          | some (args, r) => some (.call ⟨id⟩ args, r)
          | none => none
        | _ => none
      else
        match parseTerm (c :: rest) with
        | some (t, r) => some (.term t, r)
        | none => none

/-- Trailing characters Python tolerates after a parsed expression. -/
def isWsNl (c : Char) : Bool := c = ' ' || c = nlC || c = crC || c = '\t'

/-- Parse a complete payload: one expression followed only by whitespace. -/
def pyParse (cs : List Char) : Option PyExpr :=
  match parseExprCore cs with
  | some (e, rest) => if rest.all isWsNl then some e else none
  | none => none

/-- Whether an expression is a call node. -/
def isCallE : PyExpr → Bool
  | .call _ _ => true
  | _ => false

/-- Evaluate an expression in the decoder's environment: terms and
dictionaries are their own values; the only callable producing a value is the
`BoxFunction` constructor, applied to exactly four arguments. -/
def evalE : PyExpr → Option PyVal
  | .term t => some (.term t)
  | .dict kvs => some (.pdict kvs)
  | .call f args =>
    if f = "BoxFunction" then
      match args with
      | [a, b, c, d] => some (.pboxfn a b c d)
      | _ => none
    else none

/-- Model of `ast.literal_eval` on a payload: parse, reject call nodes,
evaluate.  Mirrors `ast.literal_eval` raising on any `Call` in the tree. -/
def literalEval (cs : List Char) : Option PyVal :=
  match pyParse cs with
  | some e => if isCallE e then none else evalE e
  | none => none

/-- Model of `eval` on a payload: parse and evaluate, calls included. -/
def evalStrE (cs : List Char) : Option PyVal :=
  (pyParse cs).bind evalE

/-- Python subscription `v["key"]` with a string key: defined only on
dictionaries (later duplicate keys win, as in a Python dict literal);
everything else raises (`TypeError` / `KeyError`), modelled as `none`. -/
def pySubscriptStr (v : PyVal) (key : String) : Option PyVal :=
  match v with
  | .pdict kvs =>
    match kvs.reverse.find? (fun kv => kv.1 = PyScalar.pstr key) with
    | some kv => some (.term kv.2)
    | none => none
  | _ => none

/-- Tag of a class-level metadata line (`lines[i][:3] == "# c"`). -/
def cTag : List Char := "# c".data

/-- Tag of a function-level metadata line (`lines[i][:3] == "# f"`). -/
def fTag : List Char := "# f".data

/-- Suffix form of the `Library.load_library` scan loop: the first list is
the not-yet-visited suffix of the artifact's lines.  A short line is skipped;
a class-tagged line has its payload passed to `ast.literal_eval`, its
`"directory"` entry stored, and the following 8 lines dropped (`i += 8` plus
the loop's `i += 1`); a function-tagged line has its payload passed to
`eval`, the result appended, and the following 2 lines dropped; any other
line is skipped.  Any exception aborts the decode (`none`). -/
def loadSuffix : List String → PyVal → List PyVal → Option (PyVal × List PyVal)
  | [], d, fns => some (d, fns)
  | l :: rest, d, fns =>
    if l.data.length < 4 then loadSuffix rest d fns
    else if l.data.take 3 = cTag then
      match literalEval (l.data.drop 4) with
      | some v =>
        match pySubscriptStr v "directory" with
        | some dv => loadSuffix (rest.drop 8) dv fns
        | none => none
      | none => none
    else if l.data.take 3 = fTag then
      match evalStrE (l.data.drop 4) with
      | some v => loadSuffix (rest.drop 2) d (fns ++ [v])
      | none => none
    else loadSuffix rest d fns
termination_by cs _ _ => cs.length
decreasing_by
  all_goals simp [List.length_drop]
  all_goals omega

/-- Index form of the `Library.load_library` scan loop, following the
source's `while i < len(lines)` with its explicit index jumps.  The fuel
argument only bounds the number of iterations; since `i` grows by at least 1
per iteration, `lines.length + 1` iterations always suffice (see the bridge
lemma to `loadSuffix`). -/
def loadLoopF : Nat → List String → Nat → PyVal → List PyVal → Option (PyVal × List PyVal)
  | 0, _, _, _, _ => none
  | fuel + 1, lines, i, d, fns =>
    match lines[i]? with
    | none => some (d, fns)
    | some l =>
      if l.data.length < 4 then loadLoopF fuel lines (i + 1) d fns
      else if l.data.take 3 = cTag then
        match literalEval (l.data.drop 4) with
        | some v =>
          match pySubscriptStr v "directory" with
          | some dv => loadLoopF fuel lines (i + 9) dv fns
          | none => none
        | none => none
      else if l.data.take 3 = fTag then
        match evalStrE (l.data.drop 4) with
        | some v => loadLoopF fuel lines (i + 3) d (fns ++ [v])
        | none => none
      else loadLoopF fuel lines (i + 1) d fns

/-- The initial value of the decoder's `directory` variable (`None`). -/
def pvNone : PyVal := .term (.atom .pnone)

/-- Model of `Library.load_library`: scan the artifact's lines starting at
index 3, returning the pair `(directory, functions)` the source returns, or
`none` when an exception escapes. -/
def loadLibrary (lines : List String) : Option (PyVal × List PyVal) :=
  loadLoopF (lines.length + 1) lines 3 pvNone []

/-- Modelled from the spec: `src/Models/BoxFunction.py` is not among the
repository sources (only its importer `src/Models/Library.py` is).  Fields
follow the spec's rule model — `name`, `kind`, `box` `(x, y, width, height)`,
`templateImage` — under the attribute names `Library.py` reads
(`function.name`, `function.type`, `function.box`, `function.image`).  The
box is a list of integers; the template image is an optional path. -/
structure BoxFunction where
  name : String
  type : String
  box : List Int
  image : Option String
deriving DecidableEq, Repr

/-- The `PyVal` object that evaluating
`BoxFunction('name', 'type', box, image)` yields in the decoder. -/
def BoxFunction.toVal (f : BoxFunction) : PyVal :=
  .pboxfn (.atom (.pstr f.name)) (.atom (.pstr f.type))
    (.lst (f.box.map .pint))
    (match f.image with
      | none => .atom .pnone
      | some s => .atom (.pstr s))

/-- Model of `Library.__init__`: plain field assignment, no validation. -/
structure Library where
  destination : String
  screen_box : Option (List Int)
  directory : String
  functions : List BoxFunction
deriving DecidableEq, Repr

/-- Constructing a `Library` (the body of `Library.__init__`): the four
arguments are stored as given; the constructor performs no checks. -/
def Library.init (destination : String) (screen_box : Option (List Int))
    (directory : String) (functions : List BoxFunction) : Library :=
  ⟨destination, screen_box, directory, functions⟩

/-- Fixed preamble and class header of the encoded artifact, lines 0-26 of
`Library.create_library`'s output: imports, the class line (the class name is
`os.path.basename(os.path.normpath(destination))`, taken here as a
parameter), the class-level metadata line, `__init__`, and `grab_screen`
(whose body branches on the truthiness of `screen_box`). -/
def headerLines (name : String) (sb : Option (List Int)) (dir : String) : List String :=
  [ "import random\n",
    "import numpy\n",
    "import cv2\n",
    "import pyocr\n",
    "import pyocr.builders\n",
    "from PIL import Image, ImageFilter\n",
    "from mss import mss\n",
    "\n",
    "\n",
    "class " ++ name ++ "(object):\n",
    "# c \x7b'screen_box': " ++ strOfSB sb ++ ", 'directory': '" ++ dir ++ "'\x7d\n",
    "\n",
    "    def __init__(self):\n",
    "        self.img = None\n",
    "        tools = pyocr.get_available_tools()\n",
    "        if len(tools) == 0:\n",
    "            print('No OCR tool found')\n",
    "            sys.exit(1)\n",
    "        self.tool = tools[0]\n",
    "        print(\"Will use tool '%s'\" % (self.tool.get_name()))\n",
    "\n",
    "    def grab_screen(self):\n",
    "        with mss() as sct:\n",
    (if pyTruthySB sb then "            img = sct.grab(" ++ strOfSB sb ++ ")\n"
     else "            img = sct.shot()\n"),
    "        self.img = Image.frombytes('RGB', img.size, img.rgb)\n",
    "        return self.img\n",
    "\n" ]

/-- The generated operation header for one rule. -/
def defLine (f : BoxFunction) : String := "    def " ++ f.name ++ "(self):\n"

/-- The function-level metadata line for one rule: the tag followed by the
constructor-call payload `BoxFunction('name', 'type', box, image)`. -/
def metaLine (f : BoxFunction) : String :=
  "# f BoxFunction('" ++ f.name ++ "', '" ++ f.type ++ "', " ++ intListRepr f.box
    ++ ", " ++ strOfImage f.image ++ ")\n"

/-- The crop line the encoder writes after each metadata line (at column 0,
as in the source), using the first four box components. -/
def cropLineT (f : BoxFunction) : String :=
  "cropped = self.img.crop([" ++ intRepr (f.box.getD 0 0) ++ ", " ++ intRepr (f.box.getD 1 0)
    ++ ", " ++ intRepr (f.box.getD 0 0 + f.box.getD 2 0) ++ ", "
    ++ intRepr (f.box.getD 1 0 + f.box.getD 3 0) ++ "])\n"

/-- The three lines the per-rule loop writes for one rule; `none` when the
box has fewer than four components (`IndexError` in the source). -/
def funcLines (f : BoxFunction) : Option (List String) :=
  match f.box with
  | _ :: _ :: _ :: _ :: _ => some [defLine f, metaLine f, cropLineT f]
  | _ => none

/-- The three lines the per-rule loop writes for one rule, as a total
function (meaningful when the rule's box has at least four components). -/
def funcBlockT (f : BoxFunction) : List String := [defLine f, metaLine f, cropLineT f]

/-- Body emitted after the rule loop when the last rule's type is `string`. -/
def stringBodyLines : List String :=
  ["        return self.tool.image_to_string(cropped, lang=\"eng\", builder=pyocr.builders.TextBuilder())\n"]

/-- The binary-threshold line of the numeric pipeline, parameterized by the
cutoff, for stating which cutoff the encoder actually emits. -/
def threshLine (c : Nat) : String :=
  "        im = im.point(lambda x: 0 if x<" ++ natRepr c ++ " else 255, '1')\n"

/-- Body emitted after the rule loop when the last rule's type is `number`:
edge enhancement, BGR copy, 3x resize, grayscale, binary threshold at 100,
then OCR parsed as `float`. -/
def numberBodyLines : List String :=
  [ "        im = cropped.filter(ImageFilter.EDGE_ENHANCE_MORE)\n",
    "        npcropped = numpy.array(im)[:, :, ::-1].copy()\n",
    "        npcropped = cv2.resize(npcropped, (0,0), fx=3, fy=3)\n",
    "        im = Image.fromarray(npcropped)\n",
    "        im = im.convert('L')\n",
    "        im = im.point(lambda x: 0 if x<100 else 255, '1')\n",
    "        return float(self.tool.image_to_string(im, lang=\"eng\", builder=pyocr.builders.TextBuilder()))\n" ]

/-- Body emitted after the rule loop when the last rule's type is
`position`: template matching at acceptance threshold 0.8. -/
def positionBodyLines (f : BoxFunction) : List String :=
  [ "        image = cv2.(\"" ++ strOfImage f.image ++ "\")\n",
    "        cropped = numpy.array(cropped)[:, :, ::-1].copy()\n",
    "        \n",
    "        res = cv2.matchTemplate(cropped, image, cv2.TM_CCOEFF_NORMED)\n",
    "        threshold = 0.8\n",
    "        loc = np.where( res >= threshold)\n",
    "        return loc\n",
    "\n" ]

/-- The per-kind body the encoder writes once, after the rule loop, chosen
by the type of the loop variable's final value (the last rule). -/
def kindBodyLines (f : BoxFunction) : List String :=
  if f.type = "string" then stringBodyLines
  else if f.type = "number" then numberBodyLines
  else if f.type = "position" then positionBodyLines f
  else []

/-- Model of `Library.create_library`: the lines of the artifact it writes,
or `none` when the source raises before finishing — a `NameError` when
`functions` is empty (the per-kind body dereferences the loop variable after
the loop) or an `IndexError` when some rule's box has fewer than four
components. -/
def createLibraryLines (name : String) (sb : Option (List Int)) (dir : String)
    (fns : List BoxFunction) : Option (List String) :=
  match fns.getLast? with
  | none => none
  | some lastF =>
    match fns.mapM funcLines with
    | some blocks =>
      some (headerLines name sb dir ++ blocks.flatMap id ++ kindBodyLines lastF ++ ["\n"])
    | none => none

/-- State of `CreateView` relevant to the capture loop: `self.box` (0 for
full screen, modelled `none`; otherwise the selected rectangle) and the
`self.capture_screen` flag. -/
structure CVState where
  box : Option (List Int)
  capture_screen : Bool
deriving DecidableEq, Repr

/-- Model of `CreateView.onclicked_start`'s state effect: sets
`self.capture_screen = True` (then enters the capture loop). -/
def onclicked_start (s : CVState) : CVState := { s with capture_screen := true }

/-- Model of `CreateView.onclicked_stop`: its body is `print("stop")` only;
the state is unchanged — in particular `capture_screen` is not cleared. -/
def onclicked_stop (s : CVState) : CVState := s

/-- The capture loop's guard, `while self.capture_screen:`. -/
def loopGuard (s : CVState) : Bool := s.capture_screen

/-- Observable actions of one capture-loop iteration: grabbing the screen,
saving a frame, or sleeping on a timer.  The `sleep` action exists so the
absence of any timer wait in the source loop is expressible. -/
inductive CaptureAction where
  | grab (box : Option (List Int)) : CaptureAction
  | save (path : String) : CaptureAction
  | sleep (ms : Nat) : CaptureAction
deriving DecidableEq, Repr

/-- Actions of one iteration of the `while self.capture_screen` loop in
`onclicked_start`: grab (full screen or `self.box`), then save under the
session folder with the timestamp-derived name.  No other action occurs. -/
def tickActions (box : Option (List Int)) (folder stamp : String) : List CaptureAction :=
  [.grab box, .save ("./" ++ folder ++ "/" ++ stamp ++ ".png")]

/-- Actions of a run of the capture loop over a sequence of tick timestamps.
`speed` is the value read from `frequency_spin_box` at the top of
`onclicked_start`; as in the source, it is bound and never used. -/
def captureLoopActions (box : Option (List Int)) (speed : Nat) (folder : String)
    (stamps : List String) : List CaptureAction :=
  stamps.flatMap (fun st => tickActions box folder st)

/-- Whether an action is a timer wait. -/
def isSleepA : CaptureAction → Bool
  | .sleep _ => true
  | _ => false

/-- The first character of `cs`, if any, falsifies `p` (used to state where
greedy character runs stop). -/
def headFails (p : Char → Bool) (cs : List Char) : Prop :=
  ∀ c, cs.head? = some c → p c = false

/-- Whether a line carries the function-level metadata tag (its first three
characters are the tag the decoder matches with `lines[i][:3] == "# f"`). -/
def isFTagLine (l : String) : Bool := l.data.take 3 == fTag

/-- Whether a line is a generated operation header (starts with the eight
characters `    def `). -/
def isDefHeadLine (l : String) : Bool := l.data.take 8 == "    def ".data

/-! Basic string and character facts. -/

theorem data_append (s t : String) : (s ++ t).data = s.data ++ t.data := rfl

theorem mk_data (s : String) : (⟨s.data⟩ : String) = s := rfl

theorem charNeOfPred {c q : Char} {p : Char → Bool} (h : p c = true) (hq : p q = false) :
    c ≠ q := by
  intro hcq
  subst hcq
  rw [h] at hq
  cases hq

theorem headFails_nil (p : Char → Bool) : headFails p [] := by
  intro c hc; cases hc

theorem headFails_cons {p : Char → Bool} {c : Char} {cs : List Char} (h : p c = false) :
    headFails p (c :: cs) := by
  intro d hd
  cases hd
  exact h

/-! Decimal digits and their round trip. -/

theorem digitChar_isDigit {d : Nat} (h : d < 10) : (Nat.digitChar d).isDigit = true := by
  interval_cases d <;> decide

theorem digitChar_toNat {d : Nat} (h : d < 10) : (Nat.digitChar d).toNat - 48 = d := by
  interval_cases d <;> decide

theorem natDigitsAux_fuelIrrel :
    ∀ f₁ f₂ n, n < f₁ → n < f₂ → natDigitsAux f₁ n = natDigitsAux f₂ n := by
  intro f₁
  induction f₁ with
  | zero => intro f₂ n h₁ _; omega
  | succ k ih =>
    intro f₂ n h₁ h₂
    match f₂, h₂ with
    | m + 1, h₂ =>
      by_cases h10 : n < 10
      · simp [natDigitsAux, h10]
      · have hdiv : n / 10 < n := Nat.div_lt_self (by omega) (by omega)
        simp only [natDigitsAux, h10, if_false]
        rw [ih m (n / 10) (by omega) (by omega)]

theorem natDigits_unfold (n : Nat) :
    natDigits n = if n < 10 then [Nat.digitChar n]
      else natDigits (n / 10) ++ [Nat.digitChar (n % 10)] := by
  by_cases h10 : n < 10
  · simp [natDigits, natDigitsAux, h10]
  · have hdiv : n / 10 < n := Nat.div_lt_self (by omega) (by omega)
    simp only [natDigits, natDigitsAux, h10, if_false]
    rw [natDigitsAux_fuelIrrel n (n / 10 + 1) (n / 10) (by omega) (by omega)]
    simp only [natDigitsAux]

theorem natDigits_ne_nil (n : Nat) : natDigits n ≠ [] := by
  rw [natDigits_unfold]
  by_cases h10 : n < 10 <;> simp [h10]

theorem natDigits_all_digit (n : Nat) : ∀ c ∈ natDigits n, Char.isDigit c = true := by
  induction n using Nat.strong_induction_on with
  | _ n ih =>
    rw [natDigits_unfold]
    by_cases h10 : n < 10
    · simp only [h10, if_true]
      intro c hc
      simp at hc
      subst hc
      exact digitChar_isDigit h10
    · have hdiv : n / 10 < n := Nat.div_lt_self (by omega) (by omega)
      simp only [h10, if_false]
      intro c hc
      rcases List.mem_append.mp hc with h | h
      · exact ih (n / 10) hdiv c h
      · simp at h
        subst h
        exact digitChar_isDigit (Nat.mod_lt _ (by omega))

theorem digitsToNat_append_singleton (ds : List Char) (c : Char) :
    digitsToNat (ds ++ [c]) = 10 * digitsToNat ds + (c.toNat - 48) := by
  simp [digitsToNat, Nat.mul_comm]

theorem digitsToNat_natDigits (n : Nat) : digitsToNat (natDigits n) = n := by
  induction n using Nat.strong_induction_on with
  | _ n ih =>
    rw [natDigits_unfold]
    by_cases h10 : n < 10
    · simp only [h10, if_true]
      show digitsToNat ([] ++ [Nat.digitChar n]) = n
      rw [digitsToNat_append_singleton, digitChar_toNat h10]
      simp [digitsToNat]
    · have hdiv : n / 10 < n := Nat.div_lt_self (by omega) (by omega)
      simp only [h10, if_false]
      rw [digitsToNat_append_singleton, ih (n / 10) hdiv,
        digitChar_toNat (Nat.mod_lt _ (by omega))]
      omega

/-! Greedy runs over rendered content. -/

theorem takeWhile_append_of_all {p : Char → Bool} :
    ∀ (xs rest : List Char), (∀ c ∈ xs, p c = true) → headFails p rest →
      (xs ++ rest).takeWhile p = xs := by
  intro xs
  induction xs with
  | nil =>
    intro rest _ hrest
    cases rest with
    | nil => rfl
    | cons c r => simp [List.takeWhile_cons, hrest c rfl]
  | cons a as ih =>
    intro rest hall hrest
    have ha : p a = true := hall a (by simp)
    simp [List.takeWhile_cons, ha, ih rest (fun c hc => hall c (by simp [hc])) hrest]

theorem dropWhile_append_of_all {p : Char → Bool} :
    ∀ (xs rest : List Char), (∀ c ∈ xs, p c = true) → headFails p rest →
      (xs ++ rest).dropWhile p = rest := by
  intro xs
  induction xs with
  | nil =>
    intro rest _ hrest
    cases rest with
    | nil => rfl
    | cons c r => simp [List.dropWhile_cons, hrest c rfl]
  | cons a as ih =>
    intro rest hall hrest
    have ha : p a = true := hall a (by simp)
    simp [List.dropWhile_cons, ha, ih rest (fun c hc => hall c (by simp [hc])) hrest]

theorem parseNat_natDigits (n : Nat) (rest : List Char) (h : headFails Char.isDigit rest) :
    parseNat (natDigits n ++ rest) = some (n, rest) := by
  unfold parseNat
  rw [takeWhile_append_of_all (natDigits n) rest (natDigits_all_digit n) h,
    dropWhile_append_of_all (natDigits n) rest (natDigits_all_digit n) h]
  simp [List.isEmpty_iff, natDigits_ne_nil n, digitsToNat_natDigits]

/-! Safe characters and rendered string literals. -/

theorem quote_data : "'".data = [squoteC] := by decide

theorem safeStr_chars {s : String} (h : safeStr s = true) : ∀ c ∈ s.data, safeChar c = true := by
  simpa [safeStr, List.all_eq_true] using h

theorem safe_notQuote {c : Char} (h : safeChar c = true) : (c = squoteC) = false := by
  by_cases hc : c = squoteC
  · subst hc; simp [safeChar] at h
  · simp [hc]

theorem parseAtom_pstr (s : String) (rest : List Char) (hs : safeStr s = true) :
    parseAtom ((scalarRepr (.pstr s)).data ++ rest) = some (.pstr s, rest) := by
  have hdata : (scalarRepr (.pstr s)).data ++ rest = squoteC :: (s.data ++ (squoteC :: rest)) := by
    show ("'" ++ s ++ "'").data ++ rest = _
    rw [data_append, data_append, quote_data]
    simp
  rw [hdata]
  have hall : ∀ c ∈ s.data, (!(c = squoteC)) = true := by
    intro c hc
    simp [safe_notQuote (safeStr_chars hs c hc)]
  have hhead : headFails (fun d => !(d = squoteC)) (squoteC :: rest) := by
    apply headFails_cons
    simp
  simp only [parseAtom, if_pos rfl,
    dropWhile_append_of_all s.data (squoteC :: rest) hall hhead,
    takeWhile_append_of_all s.data (squoteC :: rest) hall hhead]
  simp [mk_data]

theorem parseAtom_pint (n : Int) (rest : List Char) (h : headFails Char.isDigit rest) :
    parseAtom ((scalarRepr (.pint n)).data ++ rest) = some (.pint n, rest) := by
  rcases n with m | m
  · obtain ⟨d, ds, hds⟩ : ∃ d ds, natDigits m = d :: ds := by
      cases hnd : natDigits m with
      | nil => exact absurd hnd (natDigits_ne_nil m)
      | cons d ds => exact ⟨d, ds, rfl⟩
    have hdig : d.isDigit = true := natDigits_all_digit m d (by rw [hds]; simp)
    have hnonneg : ¬((Int.ofNat m) < 0) := Int.not_lt.mpr (Int.ofNat_nonneg m)
    have hdata : (scalarRepr (.pint (Int.ofNat m))).data ++ rest = d :: (ds ++ rest) := by
      show (intRepr (Int.ofNat m)).data ++ rest = _
      rw [intRepr, if_neg hnonneg]
      simp [hds]
    rw [hdata]
    have h1 : d ≠ squoteC := charNeOfPred hdig (by decide)
    have h2 : d ≠ '-' := charNeOfPred hdig (by decide)
    simp only [parseAtom, if_neg h1, if_neg h2, hdig, if_true]
    have hin : d :: (ds ++ rest) = natDigits m ++ rest := by rw [hds]; rfl
    rw [hin, parseNat_natDigits m rest h]
    rfl
  · have hneg : (Int.negSucc m) < 0 := Int.negSucc_lt_zero m
    have hdata : (scalarRepr (.pint (Int.negSucc m))).data ++ rest
        = '-' :: (natDigits (m + 1) ++ rest) := by
      show (intRepr (Int.negSucc m)).data ++ rest = _
      rw [intRepr, if_pos hneg]
      simp [Int.natAbs_negSucc]
    rw [hdata]
    have h1 : ('-' : Char) ≠ squoteC := by decide
    simp only [parseAtom, if_neg h1, if_pos rfl, parseNat_natDigits (m + 1) rest h]
    simp [Int.negSucc_eq]

theorem parseAtom_keyword (rest : List Char) (h : headFails isIdentChar rest) :
    parseAtom ("None".data ++ rest) = some (.pnone, rest)
      ∧ parseAtom ("True".data ++ rest) = some (.pbool true, rest)
      ∧ parseAtom ("False".data ++ rest) = some (.pbool false, rest) := by
  refine ⟨?_, ?_, ?_⟩
  · show parseAtom ('N' :: 'o' :: 'n' :: 'e' :: rest) = _
    simp only [parseAtom]
    rw [if_neg (by decide : ¬(('N' : Char) = squoteC)), if_neg (by decide : ¬(('N' : Char) = '-')),
      if_neg (by decide : ¬(('N' : Char).isDigit = true)),
      show ('N' :: 'o' :: 'n' :: 'e' :: rest : List Char) = ['N', 'o', 'n', 'e'] ++ rest from rfl,
      takeWhile_append_of_all ['N', 'o', 'n', 'e'] rest (by decide) h,
      dropWhile_append_of_all ['N', 'o', 'n', 'e'] rest (by decide) h,
      if_pos (by decide : (['N', 'o', 'n', 'e'] : List Char) = "None".data)]
  · show parseAtom ('T' :: 'r' :: 'u' :: 'e' :: rest) = _
    simp only [parseAtom]
    rw [if_neg (by decide : ¬(('T' : Char) = squoteC)), if_neg (by decide : ¬(('T' : Char) = '-')),
      if_neg (by decide : ¬(('T' : Char).isDigit = true)),
      show ('T' :: 'r' :: 'u' :: 'e' :: rest : List Char) = ['T', 'r', 'u', 'e'] ++ rest from rfl,
      takeWhile_append_of_all ['T', 'r', 'u', 'e'] rest (by decide) h,
      dropWhile_append_of_all ['T', 'r', 'u', 'e'] rest (by decide) h,
      if_neg (by decide : ¬((['T', 'r', 'u', 'e'] : List Char) = "None".data)),
      if_pos (by decide : (['T', 'r', 'u', 'e'] : List Char) = "True".data)]
  · show parseAtom ('F' :: 'a' :: 'l' :: 's' :: 'e' :: rest) = _
    simp only [parseAtom]
    rw [if_neg (by decide : ¬(('F' : Char) = squoteC)), if_neg (by decide : ¬(('F' : Char) = '-')),
      if_neg (by decide : ¬(('F' : Char).isDigit = true)),
      show ('F' :: 'a' :: 'l' :: 's' :: 'e' :: rest : List Char) = ['F', 'a', 'l', 's', 'e'] ++ rest
        from rfl,
      takeWhile_append_of_all ['F', 'a', 'l', 's', 'e'] rest (by decide) h,
      dropWhile_append_of_all ['F', 'a', 'l', 's', 'e'] rest (by decide) h,
      if_neg (by decide : ¬((['F', 'a', 'l', 's', 'e'] : List Char) = "None".data)),
      if_neg (by decide : ¬((['F', 'a', 'l', 's', 'e'] : List Char) = "True".data)),
      if_pos (by decide : (['F', 'a', 'l', 's', 'e'] : List Char) = "False".data)]

theorem parseAtom_scalar (a : PyScalar) (rest : List Char) (hs : scalarSafe a = true)
    (hd : headFails Char.isDigit rest) (hi : headFails isIdentChar rest) :
    parseAtom ((scalarRepr a).data ++ rest) = some (a, rest) := by
  cases a with
  | pnone => exact (parseAtom_keyword rest hi).1
  | pbool b =>
    cases b
    · exact (parseAtom_keyword rest hi).2.2
    · exact (parseAtom_keyword rest hi).2.1
  | pint n => exact parseAtom_pint n rest hd
  | pstr s => exact parseAtom_pstr s rest (by simpa [scalarSafe] using hs)

/-! Routing facts: leading characters of rendered values. -/

theorem skipWs_cons_notSpace {c : Char} {cs : List Char} (h : c ≠ ' ') :
    skipWs (c :: cs) = c :: cs := by
  simp [skipWs, List.dropWhile_cons, h]

theorem skipWs_cons_space (cs : List Char) : skipWs (' ' :: cs) = skipWs cs := by
  simp [skipWs]

theorem scalarRepr_head (a : PyScalar) :
    ∃ c cs', (scalarRepr a).data = c :: cs' ∧ c ≠ ' ' ∧ c ≠ '[' ∧ c ≠ ']' ∧ c ≠ ')'
      ∧ c ≠ cbraceC := by
  cases a with
  | pnone => exact ⟨'N', "one".data, rfl, by decide, by decide, by decide, by decide, by decide⟩
  | pbool b =>
    cases b
    · exact ⟨'F', "alse".data, rfl, by decide, by decide, by decide, by decide, by decide⟩
    · exact ⟨'T', "rue".data, rfl, by decide, by decide, by decide, by decide, by decide⟩
  | pint n =>
    rcases n with m | m
    · obtain ⟨d, ds, hds⟩ : ∃ d ds, natDigits m = d :: ds := by
        cases hnd : natDigits m with
        | nil => exact absurd hnd (natDigits_ne_nil m)
        | cons d ds => exact ⟨d, ds, rfl⟩
      have hdig : d.isDigit = true := natDigits_all_digit m d (by rw [hds]; simp)
      refine ⟨d, ds, ?_, charNeOfPred hdig (by decide), charNeOfPred hdig (by decide),
        charNeOfPred hdig (by decide), charNeOfPred hdig (by decide),
        charNeOfPred hdig (by decide)⟩
      have hnonneg : ¬((Int.ofNat m) < 0) := Int.not_lt.mpr (Int.ofNat_nonneg m)
      show (intRepr (Int.ofNat m)).data = d :: ds
      rw [intRepr, if_neg hnonneg]
      simp [hds]
    · refine ⟨'-', natDigits (m + 1), ?_, by decide, by decide, by decide, by decide, by decide⟩
      show (intRepr (Int.negSucc m)).data = _
      rw [intRepr, if_pos (Int.negSucc_lt_zero m)]
      simp [Int.natAbs_negSucc]
  | pstr s =>
    refine ⟨squoteC, s.data ++ [squoteC], ?_, by decide, by decide, by decide, by decide,
      by decide⟩
    show ("'" ++ s ++ "'").data = _
    rw [data_append, data_append, quote_data]
    simp

theorem scalarRepr_len (a : PyScalar) : 1 ≤ (scalarRepr a).data.length := by
  obtain ⟨c, cs', hdata, -⟩ := scalarRepr_head a
  rw [hdata]
  simp

theorem parseTerm_atom (a : PyScalar) (rest : List Char) (hs : scalarSafe a = true)
    (hd : headFails Char.isDigit rest) (hi : headFails isIdentChar rest) :
    parseTerm ((scalarRepr a).data ++ rest) = some (.atom a, rest) := by
  obtain ⟨c, cs', hdata, hsp, hbr, -, -, -⟩ := scalarRepr_head a
  have hin : (scalarRepr a).data ++ rest = c :: (cs' ++ rest) := by rw [hdata]; rfl
  simp only [parseTerm, hin, skipWs_cons_notSpace hsp]
  split
  · next cs₂ heq =>
    rw [List.cons.injEq] at heq
    exact absurd heq.1 hbr
  · next heq =>
    rw [← hin, parseAtom_scalar a rest hs hd hi]

/-! Inversion of list parsing on rendered lists. -/

theorem parseScalars_cons_space (fuel : Nat) (cs : List Char) :
    parseScalars fuel (' ' :: cs) = parseScalars fuel cs := by
  cases fuel with
  | zero => rfl
  | succ f => simp only [parseScalars, skipWs_cons_space]

theorem commaSpace_data : ", ".data = [',', ' '] := by decide

theorem parseScalars_body :
    ∀ (xs : List PyScalar) (fuel : Nat) (rest : List Char), xs.length < fuel →
      (∀ a ∈ xs, scalarSafe a = true) →
      parseScalars fuel ((scalarListBody xs).data ++ (']' :: rest)) = some (xs, rest) := by
  intro xs
  induction xs with
  | nil =>
    intro fuel rest hfuel _
    match fuel, hfuel with
    | f + 1, _ =>
      show parseScalars (f + 1) (']' :: rest) = some ([], rest)
      simp only [parseScalars, skipWs_cons_notSpace (by decide : (']' : Char) ≠ ' ')]
  | cons a as ih =>
    intro fuel rest hfuel hsafe
    match fuel, hfuel with
    | f + 1, hfuel =>
      obtain ⟨c, cs', hdata, hsp, hbr, hket, -, -⟩ := scalarRepr_head a
      cases as with
      | nil =>
        have hin : (scalarListBody [a]).data ++ (']' :: rest) = c :: (cs' ++ (']' :: rest)) := by
          show (scalarRepr a).data ++ (']' :: rest) = _
          rw [hdata]
          rfl
        rw [hin]
        simp only [parseScalars, skipWs_cons_notSpace hsp]
        split
        · next heq =>
          rw [List.cons.injEq] at heq
          exact absurd heq.1 hket
        · next heq =>
          rw [← hin]
          show (match parseAtom ((scalarRepr a).data ++ (']' :: rest)) with
            | none => none
            | some (a, cs₁) =>
              match skipWs cs₁ with
              | ',' :: cs₂ =>
                match parseScalars f cs₂ with
                | some (xs, r) => some (a :: xs, r)
                | none => none
              | ']' :: rest => some ([a], rest)
              | _ => none) = some ([a], rest)
          rw [parseAtom_scalar a (']' :: rest) (hsafe a (by simp))
            (headFails_cons (by decide)) (headFails_cons (by decide))]
          simp only [skipWs_cons_notSpace (by decide : (']' : Char) ≠ ' ')]
      | cons b t =>
        have hin : (scalarListBody (a :: b :: t)).data ++ (']' :: rest)
            = c :: (cs' ++ (',' :: ' ' :: ((scalarListBody (b :: t)).data ++ (']' :: rest)))) := by
          show (scalarRepr a ++ ", " ++ scalarListBody (b :: t)).data ++ (']' :: rest) = _
          rw [data_append, data_append, commaSpace_data, hdata]
          simp
        rw [hin]
        simp only [parseScalars, skipWs_cons_notSpace hsp]
        split
        · next heq =>
          rw [List.cons.injEq] at heq
          exact absurd heq.1 hket
        · next heq =>
          have hback : c :: (cs' ++ (',' :: ' ' :: ((scalarListBody (b :: t)).data ++ (']' :: rest))))
              = (scalarRepr a).data ++ (',' :: ' ' :: ((scalarListBody (b :: t)).data ++ (']' :: rest))) := by
            rw [hdata]
            rfl
          rw [hback, parseAtom_scalar a _ (hsafe a (by simp))
            (headFails_cons (by decide)) (headFails_cons (by decide))]
          simp only [skipWs_cons_notSpace (by decide : ((',') : Char) ≠ ' ')]
          rw [parseScalars_cons_space f _, ih f rest (by simp at hfuel ⊢; omega)
            (fun x hx => hsafe x (by simp [hx]))]

theorem scalarListBody_len :
    ∀ xs : List PyScalar, xs.length ≤ (scalarListBody xs).data.length := by
  intro xs
  induction xs with
  | nil => simp [scalarListBody]
  | cons a as ih =>
    cases as with
    | nil =>
      show 1 ≤ (scalarRepr a).data.length
      exact scalarRepr_len a
    | cons b t =>
      show (a :: b :: t).length ≤ (scalarRepr a ++ ", " ++ scalarListBody (b :: t)).data.length
      have h1 := scalarRepr_len a
      have h2 := ih
      simp only [data_append, List.length_append, commaSpace_data]
      simp at h2 ⊢
      omega

theorem parseTerm_lst (xs : List PyScalar) (rest : List Char)
    (hall : ∀ a ∈ xs, scalarSafe a = true) :
    parseTerm (('[' :: ((scalarListBody xs).data ++ (']' :: rest)))) = some (.lst xs, rest) := by
  simp only [parseTerm, skipWs_cons_notSpace (by decide : ('[' : Char) ≠ ' ')]
  rw [parseScalars_body xs (((scalarListBody xs).data ++ (']' :: rest)).length + 1) rest
    (by have h := scalarListBody_len xs; simp only [List.length_append, List.length_cons]; omega)
    hall]

theorem termRepr_data_lst (xs : List PyScalar) (rest : List Char) :
    (termRepr (.lst xs)).data ++ rest = '[' :: ((scalarListBody xs).data ++ (']' :: rest)) := by
  show ("[" ++ scalarListBody xs ++ "]").data ++ rest = _
  rw [data_append, data_append]
  simp

theorem parseTerm_render (t : PyTerm) (rest : List Char) (hs : termSafe t = true)
    (hd : headFails Char.isDigit rest) (hi : headFails isIdentChar rest) :
    parseTerm ((termRepr t).data ++ rest) = some (t, rest) := by
  cases t with
  | atom a => exact parseTerm_atom a rest (by simpa [termSafe] using hs) hd hi
  | lst xs =>
    rw [termRepr_data_lst]
    exact parseTerm_lst xs rest (by simpa [termSafe, List.all_eq_true] using hs)

theorem termRepr_head (t : PyTerm) :
    ∃ c cs', (termRepr t).data = c :: cs' ∧ c ≠ ' ' ∧ c ≠ ')' ∧ c ≠ cbraceC := by
  cases t with
  | atom a =>
    obtain ⟨c, cs', hdata, h1, h2, h3, h4, h5⟩ := scalarRepr_head a
    exact ⟨c, cs', hdata, h1, h4, h5⟩
  | lst xs =>
    exact ⟨'[', (scalarListBody xs).data ++ "]".data, by
      show ("[" ++ scalarListBody xs ++ "]").data = _
      rw [data_append, data_append]
      simp, by decide, by decide, by decide⟩

theorem termRepr_len (t : PyTerm) : 1 ≤ (termRepr t).data.length := by
  obtain ⟨c, cs', hdata, -⟩ := termRepr_head t
  rw [hdata]
  simp

theorem parseTerm_cons_space (cs : List Char) : parseTerm (' ' :: cs) = parseTerm cs := by
  simp only [parseTerm, skipWs_cons_space]

theorem parseTerms_cons_space (fuel : Nat) (cs : List Char) :
    parseTerms fuel (' ' :: cs) = parseTerms fuel cs := by
  cases fuel with
  | zero => rfl
  | succ f => simp only [parseTerms, skipWs_cons_space]

theorem parseTerms_body :
    ∀ (ts : List PyTerm) (fuel : Nat) (rest : List Char), ts.length < fuel →
      (∀ t ∈ ts, termSafe t = true) →
      parseTerms fuel ((argsBody ts).data ++ (')' :: rest)) = some (ts, rest) := by
  intro ts
  induction ts with
  | nil =>
    intro fuel rest hfuel _
    match fuel, hfuel with
    | f + 1, _ =>
      show parseTerms (f + 1) (')' :: rest) = some ([], rest)
      simp only [parseTerms, skipWs_cons_notSpace (by decide : ((')') : Char) ≠ ' ')]
  | cons t ts' ih =>
    intro fuel rest hfuel hsafe
    match fuel, hfuel with
    | f + 1, hfuel =>
      obtain ⟨c, cs', hdata, hsp, hpar, -⟩ := termRepr_head t
      cases ts' with
      | nil =>
        have hin : (argsBody [t]).data ++ (')' :: rest) = c :: (cs' ++ (')' :: rest)) := by
          show (termRepr t).data ++ (')' :: rest) = _
          rw [hdata]
          rfl
        rw [hin]
        simp only [parseTerms, skipWs_cons_notSpace hsp]
        split
        · next heq =>
          rw [List.cons.injEq] at heq
          exact absurd heq.1 hpar
        · next heq =>
          rw [← hin]
          show (match parseTerm ((argsBody [t]).data ++ (')' :: rest)) with
            | none => none
            | some (t, cs₁) =>
              match skipWs cs₁ with
              | ',' :: cs₂ =>
                match parseTerms f cs₂ with
                | some (ts, r) => some (t :: ts, r)
                | none => none
              | ')' :: rest => some ([t], rest)
              | _ => none) = some ([t], rest)
          show (match parseTerm ((termRepr t).data ++ (')' :: rest)) with
            | none => none
            | some (t, cs₁) =>
              match skipWs cs₁ with
              | ',' :: cs₂ =>
                match parseTerms f cs₂ with
                | some (ts, r) => some (t :: ts, r)
                | none => none
              | ')' :: rest => some ([t], rest)
              | _ => none) = some ([t], rest)
          rw [parseTerm_render t (')' :: rest) (hsafe t (by simp))
            (headFails_cons (by decide)) (headFails_cons (by decide))]
          simp only [skipWs_cons_notSpace (by decide : ((')') : Char) ≠ ' ')]
      | cons u r =>
        have hin : (argsBody (t :: u :: r)).data ++ (')' :: rest)
            = c :: (cs' ++ (',' :: ' ' :: ((argsBody (u :: r)).data ++ (')' :: rest)))) := by
          show (termRepr t ++ ", " ++ argsBody (u :: r)).data ++ (')' :: rest) = _
          rw [data_append, data_append, commaSpace_data, hdata]
          simp
        rw [hin]
        simp only [parseTerms, skipWs_cons_notSpace hsp]
        split
        · next heq =>
          rw [List.cons.injEq] at heq
          exact absurd heq.1 hpar
        · next heq =>
          have hback : c :: (cs' ++ (',' :: ' ' :: ((argsBody (u :: r)).data ++ (')' :: rest))))
              = (termRepr t).data ++ (',' :: ' ' :: ((argsBody (u :: r)).data ++ (')' :: rest))) := by
            rw [hdata]
            rfl
          rw [hback, parseTerm_render t _ (hsafe t (by simp))
            (headFails_cons (by decide)) (headFails_cons (by decide))]
          simp only [skipWs_cons_notSpace (by decide : ((',') : Char) ≠ ' ')]
          rw [parseTerms_cons_space f _, ih f rest (by simp at hfuel ⊢; omega)
            (fun x hx => hsafe x (by simp [hx]))]

theorem parseKVs_cons_space (fuel : Nat) (cs : List Char) :
    parseKVs fuel (' ' :: cs) = parseKVs fuel cs := by
  cases fuel with
  | zero => rfl
  | succ f => simp only [parseKVs, skipWs_cons_space]

theorem colonSpace_data : ": ".data = [':', ' '] := by decide

theorem parseKVs_body :
    ∀ (kvs : List (PyScalar × PyTerm)) (fuel : Nat) (rest : List Char), kvs.length < fuel →
      (∀ kv ∈ kvs, scalarSafe kv.1 = true ∧ termSafe kv.2 = true) →
      parseKVs fuel ((kvsBody kvs).data ++ (cbraceC :: rest)) = some (kvs, rest) := by
  intro kvs
  induction kvs with
  | nil =>
    intro fuel rest hfuel _
    match fuel, hfuel with
    | f + 1, _ =>
      show parseKVs (f + 1) (cbraceC :: rest) = some ([], rest)
      simp [parseKVs, skipWs_cons_notSpace (by decide : cbraceC ≠ ' ')]
  | cons kv kvs' ih =>
    intro fuel rest hfuel hsafe
    match fuel, hfuel with
    | f + 1, hfuel =>
      obtain ⟨k, v⟩ := kv
      obtain ⟨c, cs', hdata, hsp, -, -, -, hbrace⟩ := scalarRepr_head k
      have hkv := hsafe (k, v) (by simp)
      cases kvs' with
      | nil =>
        have hin : (kvsBody [(k, v)]).data ++ (cbraceC :: rest)
            = c :: (cs' ++ (':' :: ' ' :: ((termRepr v).data ++ (cbraceC :: rest)))) := by
          show (scalarRepr k ++ ": " ++ termRepr v).data ++ (cbraceC :: rest) = _
          rw [data_append, data_append, colonSpace_data, hdata]
          simp
        rw [hin]
        simp only [parseKVs, skipWs_cons_notSpace hsp]
        rw [if_neg hbrace]
        have hback : c :: (cs' ++ (':' :: ' ' :: ((termRepr v).data ++ (cbraceC :: rest))))
            = (scalarRepr k).data ++ (':' :: ' ' :: ((termRepr v).data ++ (cbraceC :: rest))) := by
          rw [hdata]
          rfl
        rw [hback, parseAtom_scalar k _ hkv.1 (headFails_cons (by decide))
          (headFails_cons (by decide))]
        simp only [skipWs_cons_notSpace (by decide : ((':') : Char) ≠ ' ')]
        rw [parseTerm_cons_space, parseTerm_render v (cbraceC :: rest) hkv.2
          (headFails_cons (by decide)) (headFails_cons (by decide))]
        have hcomma : (cbraceC = ',') = False := eq_false (by decide)
        simp [skipWs_cons_notSpace (by decide : cbraceC ≠ ' '), hcomma]
      | cons p r =>
        have hin : (kvsBody ((k, v) :: p :: r)).data ++ (cbraceC :: rest)
            = c :: (cs' ++ (':' :: ' ' :: ((termRepr v).data
              ++ (',' :: ' ' :: ((kvsBody (p :: r)).data ++ (cbraceC :: rest)))))) := by
          show (scalarRepr k ++ ": " ++ termRepr v ++ ", " ++ kvsBody (p :: r)).data
              ++ (cbraceC :: rest) = _
          rw [data_append, data_append, data_append, data_append, colonSpace_data,
            commaSpace_data, hdata]
          simp
        rw [hin]
        simp only [parseKVs, skipWs_cons_notSpace hsp]
        rw [if_neg hbrace]
        have hback : c :: (cs' ++ (':' :: ' ' :: ((termRepr v).data
              ++ (',' :: ' ' :: ((kvsBody (p :: r)).data ++ (cbraceC :: rest))))))
            = (scalarRepr k).data ++ (':' :: ' ' :: ((termRepr v).data
              ++ (',' :: ' ' :: ((kvsBody (p :: r)).data ++ (cbraceC :: rest))))) := by
          rw [hdata]
          rfl
        rw [hback, parseAtom_scalar k _ hkv.1 (headFails_cons (by decide))
          (headFails_cons (by decide))]
        simp only [skipWs_cons_notSpace (by decide : ((':') : Char) ≠ ' ')]
        rw [parseTerm_cons_space, parseTerm_render v _ hkv.2
          (headFails_cons (by decide)) (headFails_cons (by decide))]
        simp only [skipWs_cons_notSpace (by decide : ((',') : Char) ≠ ' '), if_true]
        rw [parseKVs_cons_space f _, ih f rest (by simp at hfuel ⊢; omega)
          (fun x hx => hsafe x (by simp [hx]))]

theorem kvsBody_len : ∀ kvs : List (PyScalar × PyTerm), kvs.length ≤ (kvsBody kvs).data.length := by
  intro kvs
  induction kvs with
  | nil => simp [kvsBody]
  | cons kv kvs' ih =>
    obtain ⟨k, v⟩ := kv
    cases kvs' with
    | nil =>
      show 1 ≤ (scalarRepr k ++ ": " ++ termRepr v).data.length
      have h1 := scalarRepr_len k
      simp only [data_append, List.length_append]
      omega
    | cons p r =>
      show (_ : Nat) ≤ (scalarRepr k ++ ": " ++ termRepr v ++ ", " ++ kvsBody (p :: r)).data.length
      have h1 := scalarRepr_len k
      have h2 := ih
      simp only [data_append, List.length_append, List.length_cons] at h2 ⊢
      simp at h2 ⊢
      omega

theorem argsBody_len : ∀ ts : List PyTerm, ts.length ≤ (argsBody ts).data.length := by
  intro ts
  induction ts with
  | nil => simp [argsBody]
  | cons t ts' ih =>
    cases ts' with
    | nil =>
      show 1 ≤ (termRepr t).data.length
      exact termRepr_len t
    | cons u r =>
      show (_ : Nat) ≤ (termRepr t ++ ", " ++ argsBody (u :: r)).data.length
      have h1 := termRepr_len t
      have h2 := ih
      simp only [data_append, List.length_append, List.length_cons] at h2 ⊢
      simp at h2 ⊢
      omega

theorem parseExprCore_dict (kvs : List (PyScalar × PyTerm)) (rest : List Char)
    (hs : ∀ kv ∈ kvs, scalarSafe kv.1 = true ∧ termSafe kv.2 = true) :
    parseExprCore (obraceC :: ((kvsBody kvs).data ++ (cbraceC :: rest)))
      = some (.dict kvs, rest) := by
  simp only [parseExprCore, skipWs_cons_notSpace (by decide : obraceC ≠ ' '), if_pos rfl]
  rw [parseKVs_body kvs (((kvsBody kvs).data ++ (cbraceC :: rest)).length + 1) rest
    (by have := kvsBody_len kvs; simp only [List.length_append, List.length_cons]; omega) hs]
  simp

theorem parseExprCore_boxcall (args : List PyTerm) (rest : List Char)
    (hs : ∀ t ∈ args, termSafe t = true) :
    parseExprCore ("BoxFunction".data ++ ('(' :: ((argsBody args).data ++ (')' :: rest))))
      = some (.call "BoxFunction" args, rest) := by
  show parseExprCore ('B' :: ("oxFunction".data ++ ('(' :: ((argsBody args).data
    ++ (')' :: rest))))) = _
  simp only [parseExprCore, skipWs_cons_notSpace (by decide : ('B' : Char) ≠ ' ')]
  rw [if_neg (by decide : ¬(('B' : Char) = obraceC))]
  rw [show ('B' :: ("oxFunction".data ++ ('(' :: ((argsBody args).data ++ (')' :: rest))))
      : List Char)
    = "BoxFunction".data ++ ('(' :: ((argsBody args).data ++ (')' :: rest))) from rfl]
  rw [takeWhile_append_of_all "BoxFunction".data _ (by decide) (headFails_cons (by decide)),
    dropWhile_append_of_all "BoxFunction".data _ (by decide) (headFails_cons (by decide))]
  rw [if_pos (by decide)]
  have hlen : args.length < (argsBody args).length + (rest.length + 1) + 1 := by
    have h := argsBody_len args
    have h2 : (argsBody args).data.length = (argsBody args).length := rfl
    omega
  have hterms := parseTerms_body args ((argsBody args).length + (rest.length + 1) + 1) rest hlen hs
  simp [hterms, mk_data]

theorem pyParse_dict (kvs : List (PyScalar × PyTerm)) (tail : List Char)
    (htail : tail.all isWsNl = true)
    (hs : ∀ kv ∈ kvs, scalarSafe kv.1 = true ∧ termSafe kv.2 = true) :
    pyParse (obraceC :: ((kvsBody kvs).data ++ (cbraceC :: tail))) = some (.dict kvs) := by
  simp [pyParse, parseExprCore_dict kvs tail hs, htail]

theorem pyParse_boxcall (args : List PyTerm) (tail : List Char)
    (htail : tail.all isWsNl = true) (hs : ∀ t ∈ args, termSafe t = true) :
    pyParse ("BoxFunction".data ++ ('(' :: ((argsBody args).data ++ (')' :: tail))))
      = some (.call "BoxFunction" args) := by
  unfold pyParse
  rw [parseExprCore_boxcall args tail hs]
  simp [htail]

theorem literalEval_dict (kvs : List (PyScalar × PyTerm)) (tail : List Char)
    (htail : tail.all isWsNl = true)
    (hs : ∀ kv ∈ kvs, scalarSafe kv.1 = true ∧ termSafe kv.2 = true) :
    literalEval (obraceC :: ((kvsBody kvs).data ++ (cbraceC :: tail))) = some (.pdict kvs) := by
  simp [literalEval, pyParse_dict kvs tail htail hs, isCallE, evalE]

theorem evalStrE_boxcall (a b c d : PyTerm) (tail : List Char)
    (htail : tail.all isWsNl = true)
    (hs : ∀ t ∈ [a, b, c, d], termSafe t = true) :
    evalStrE ("BoxFunction".data ++ ('(' :: ((argsBody [a, b, c, d]).data ++ (')' :: tail))))
      = some (.pboxfn a b c d) := by
  unfold evalStrE
  rw [pyParse_boxcall [a, b, c, d] tail htail hs]
  simp [evalE]

/-! From encoder line strings to parser inputs. -/

theorem termRepr_sbTerm (sb : Option (List Int)) : termRepr (sbTerm sb) = strOfSB sb := by
  cases sb <;> rfl

theorem cLine_data (sb : Option (List Int)) (dir : String) :
    ("# c \x7b'screen_box': " ++ strOfSB sb ++ ", 'directory': '" ++ dir ++ "'\x7d\n").data
      = "# c ".data ++ (obraceC :: ((kvsBody [(.pstr "screen_box", sbTerm sb),
          (.pstr "directory", .atom (.pstr dir))]).data ++ (cbraceC :: [nlC]))) := by
  cases sb with
  | none =>
    simp [kvsBody, scalarRepr, termRepr, sbTerm, strOfSB, data_append, obraceC, cbraceC,
      nlC, squoteC]
  | some l =>
    simp [kvsBody, scalarRepr, termRepr, sbTerm, strOfSB, intListRepr, data_append, obraceC,
      cbraceC, nlC, squoteC]

theorem metaLine_data (f : BoxFunction) (himg : f.image = none) :
    (metaLine f).data = "# f ".data ++ ("BoxFunction".data ++ ('(' :: ((argsBody
      [.atom (.pstr f.name), .atom (.pstr f.type), .lst (f.box.map .pint), .atom .pnone]).data
      ++ (')' :: [nlC])))) := by
  simp only [metaLine, himg, strOfImage, argsBody, termRepr, scalarRepr, intListRepr]
  simp [data_append, squoteC, nlC]

/-! Step lemmas for the decoder's scan. -/

theorem loadSuffix_nil (d : PyVal) (fns : List PyVal) : loadSuffix [] d fns = some (d, fns) := by
  simp [loadSuffix]

theorem loadSuffix_short (l : String) (rest : List String) (d : PyVal) (fns : List PyVal)
    (h : l.data.length < 4) : loadSuffix (l :: rest) d fns = loadSuffix rest d fns := by
  rw [loadSuffix, if_pos h]

theorem loadSuffix_other (l : String) (rest : List String) (d : PyVal) (fns : List PyVal)
    (h4 : ¬ l.data.length < 4) (hc : l.data.take 3 ≠ cTag) (hf : l.data.take 3 ≠ fTag) :
    loadSuffix (l :: rest) d fns = loadSuffix rest d fns := by
  rw [loadSuffix, if_neg h4, if_neg hc, if_neg hf]

theorem loadSuffix_cHit (l : String) (rest : List String) (d : PyVal) (fns : List PyVal)
    (v dv : PyVal) (h4 : ¬ l.data.length < 4) (hc : l.data.take 3 = cTag)
    (hv : literalEval (l.data.drop 4) = some v)
    (hdv : pySubscriptStr v "directory" = some dv) :
    loadSuffix (l :: rest) d fns = loadSuffix (rest.drop 8) dv fns := by
  rw [loadSuffix, if_neg h4, if_pos hc, hv]
  simp [hdv]

theorem loadSuffix_fHit (l : String) (rest : List String) (d : PyVal) (fns : List PyVal)
    (v : PyVal) (h4 : ¬ l.data.length < 4) (hc : l.data.take 3 ≠ cTag)
    (hf : l.data.take 3 = fTag) (hv : evalStrE (l.data.drop 4) = some v) :
    loadSuffix (l :: rest) d fns = loadSuffix (rest.drop 2) d (fns ++ [v]) := by
  rw [loadSuffix, if_neg h4, if_neg hc, if_pos hf, hv]

theorem loadSuffix_skipPre (pre tail : String) (rest : List String) (d : PyVal)
    (fns : List PyVal) (h4 : 4 ≤ pre.data.length) (hc : pre.data.take 3 ≠ cTag)
    (hf : pre.data.take 3 ≠ fTag) :
    loadSuffix ((pre ++ tail) :: rest) d fns = loadSuffix rest d fns := by
  apply loadSuffix_other
  · rw [data_append]
    simp only [List.length_append]
    omega
  · rw [data_append, List.take_append_of_le_length (by omega)]
    exact hc
  · rw [data_append, List.take_append_of_le_length (by omega)]
    exact hf

theorem pySubscriptStr_classDict (sb : Option (List Int)) (dir : String) :
    pySubscriptStr (.pdict [(.pstr "screen_box", sbTerm sb),
      (.pstr "directory", .atom (.pstr dir))]) "directory"
      = some (.term (.atom (.pstr dir))) := by
  simp [pySubscriptStr, List.find?]

theorem strAppend_assoc (a b c : String) : (a ++ b) ++ c = a ++ (b ++ c) := by
  rcases a with ⟨da⟩
  rcases b with ⟨db⟩
  rcases c with ⟨dc⟩
  exact congrArg String.mk (List.append_assoc da db dc)

theorem sbTerm_safe (sb : Option (List Int)) : termSafe (sbTerm sb) = true := by
  cases sb with
  | none => decide
  | some l =>
    simp only [sbTerm, termSafe, List.all_eq_true]
    intro x hx
    obtain ⟨n, -, hn⟩ := List.mem_map.mp hx
    rw [← hn]
    rfl

theorem cLine_take3 (sb : Option (List Int)) (dir : String) :
    ("# c \x7b'screen_box': " ++ strOfSB sb ++ ", 'directory': '" ++ dir ++ "'\x7d\n").data.take 3
      = cTag := by
  rw [cLine_data, List.take_append_of_le_length (by decide)]
  decide

theorem cLine_len (sb : Option (List Int)) (dir : String) :
    ¬ ("# c \x7b'screen_box': " ++ strOfSB sb ++ ", 'directory': '" ++ dir ++ "'\x7d\n").data.length
      < 4 := by
  rw [cLine_data, List.length_append]
  have h1 : ("# c ".data).length = 4 := by decide
  omega

theorem cLine_eval (sb : Option (List Int)) (dir : String) (hdir : safeStr dir = true) :
    literalEval (("# c \x7b'screen_box': " ++ strOfSB sb ++ ", 'directory': '" ++ dir
        ++ "'\x7d\n").data.drop 4)
      = some (.pdict [(.pstr "screen_box", sbTerm sb), (.pstr "directory", .atom (.pstr dir))]) := by
  rw [cLine_data]
  rw [show (4 : Nat) = ("# c ".data).length from by decide, List.drop_left]
  apply literalEval_dict
  · decide
  · intro kv hkv
    simp at hkv
    rcases hkv with h | h <;> rw [h]
    · exact ⟨by show scalarSafe (PyScalar.pstr "screen_box") = true; decide, sbTerm_safe sb⟩
    · exact ⟨by show scalarSafe (PyScalar.pstr "directory") = true; decide,
        by simpa [termSafe, scalarSafe] using hdir⟩

theorem loadLoopF_eq_suffix :
    ∀ (fuel : Nat) (lines : List String) (i : Nat) (d : PyVal) (fns : List PyVal),
      lines.length - i < fuel →
      loadLoopF fuel lines i d fns = loadSuffix (lines.drop i) d fns := by
  intro fuel
  induction fuel with
  | zero =>
    intro lines i d fns h
    omega
  | succ f ih =>
    intro lines i d fns h
    by_cases hi : i < lines.length
    · have hget : lines[i]? = some lines[i] := List.getElem?_eq_getElem hi
      have hdrop : lines.drop i = lines[i] :: lines.drop (i + 1) := List.drop_eq_getElem_cons hi
      rw [hdrop]
      simp only [loadLoopF, hget]
      by_cases h4 : lines[i].data.length < 4
      · rw [if_pos h4, loadSuffix_short _ _ _ _ h4, ih lines (i + 1) d fns (by omega)]
      · rw [if_neg h4]
        by_cases hc : lines[i].data.take 3 = cTag
        · rw [if_pos hc]
          cases hle : literalEval (lines[i].data.drop 4) with
          | none => rw [loadSuffix, if_neg h4, if_pos hc, hle]
          | some v =>
            cases hsub : pySubscriptStr v "directory" with
            | none =>
              rw [loadSuffix, if_neg h4, if_pos hc, hle]
              simp [hsub]
            | some dv =>
              rw [loadSuffix_cHit _ _ _ _ v dv h4 hc hle hsub, List.drop_drop,
                show i + 1 + 8 = i + 9 from by omega]
              show (match pySubscriptStr v "directory" with
                | some dv => loadLoopF f lines (i + 9) dv fns
                | none => none) = _
              rw [hsub]
              exact ih lines (i + 9) dv fns (by omega)
        · rw [if_neg hc]
          by_cases hf : lines[i].data.take 3 = fTag
          · rw [if_pos hf]
            cases hle : evalStrE (lines[i].data.drop 4) with
            | none => rw [loadSuffix, if_neg h4, if_neg hc, if_pos hf, hle]
            | some v =>
              rw [loadSuffix_fHit _ _ _ _ v h4 hc hf hle, List.drop_drop,
                show i + 1 + 2 = i + 3 from by omega]
              show loadLoopF f lines (i + 3) d (fns ++ [v]) = _
              exact ih lines (i + 3) d (fns ++ [v]) (by omega)
          · rw [if_neg hf, loadSuffix_other _ _ _ _ h4 hc hf,
              ih lines (i + 1) d fns (by omega)]
    · have hge : lines.length ≤ i := by omega
      have hget : lines[i]? = none := by
        rw [List.getElem?_eq_none_iff]
        exact hge
      have hdrop : lines.drop i = [] := List.drop_eq_nil_of_le hge
      simp only [loadLoopF, hget, hdrop, loadSuffix_nil]

theorem loadLibrary_eq_suffix (lines : List String) :
    loadLibrary lines = loadSuffix (lines.drop 3) pvNone [] :=
  loadLoopF_eq_suffix (lines.length + 1) lines 3 pvNone [] (by omega)

theorem headerWalk (name : String) (sb : Option (List Int)) (dir : String) (rest : List String)
    (d : PyVal) (fns : List PyVal) (hdir : safeStr dir = true) :
    loadSuffix ((headerLines name sb dir).drop 3 ++ rest) d fns
      = loadSuffix rest (.term (.atom (.pstr dir))) fns := by
  show loadSuffix ("import pyocr\n" :: "import pyocr.builders\n"
    :: "from PIL import Image, ImageFilter\n" :: "from mss import mss\n" :: "\n" :: "\n"
    :: ("class " ++ name ++ "(object):\n")
    :: ("# c \x7b'screen_box': " ++ strOfSB sb ++ ", 'directory': '" ++ dir ++ "'\x7d\n")
    :: "\n" :: "    def __init__(self):\n" :: "        self.img = None\n"
    :: "        tools = pyocr.get_available_tools()\n" :: "        if len(tools) == 0:\n"
    :: "            print('No OCR tool found')\n" :: "            sys.exit(1)\n"
    :: "        self.tool = tools[0]\n"
    :: "        print(\"Will use tool '%s'\" % (self.tool.get_name()))\n" :: "\n"
    :: "    def grab_screen(self):\n" :: "        with mss() as sct:\n"
    :: (if pyTruthySB sb then "            img = sct.grab(" ++ strOfSB sb ++ ")\n"
        else "            img = sct.shot()\n")
    :: "        self.img = Image.frombytes('RGB', img.size, img.rgb)\n"
    :: "        return self.img\n" :: "\n" :: rest) d fns = _
  rw [loadSuffix_other _ _ d fns (by decide) (by decide) (by decide),
    loadSuffix_other _ _ d fns (by decide) (by decide) (by decide),
    loadSuffix_other _ _ d fns (by decide) (by decide) (by decide),
    loadSuffix_other _ _ d fns (by decide) (by decide) (by decide),
    loadSuffix_short _ _ d fns (by decide), loadSuffix_short _ _ d fns (by decide),
    strAppend_assoc "class " name "(object):\n",
    loadSuffix_skipPre "class " _ _ d fns (by decide) (by decide) (by decide),
    loadSuffix_cHit _ _ d fns _ _ (cLine_len sb dir) (cLine_take3 sb dir)
      (cLine_eval sb dir hdir) (pySubscriptStr_classDict sb dir)]
  show loadSuffix ("        print(\"Will use tool '%s'\" % (self.tool.get_name()))\n" :: "\n"
    :: "    def grab_screen(self):\n" :: "        with mss() as sct:\n"
    :: (if pyTruthySB sb then "            img = sct.grab(" ++ strOfSB sb ++ ")\n"
        else "            img = sct.shot()\n")
    :: "        self.img = Image.frombytes('RGB', img.size, img.rgb)\n"
    :: "        return self.img\n" :: "\n" :: rest) (.term (.atom (.pstr dir))) fns = _
  rw [loadSuffix_other _ _ _ fns (by decide) (by decide) (by decide),
    loadSuffix_short _ _ _ fns (by decide),
    loadSuffix_other _ _ _ fns (by decide) (by decide) (by decide),
    loadSuffix_other _ _ _ fns (by decide) (by decide) (by decide)]
  by_cases hsb : pyTruthySB sb
  · rw [if_pos hsb, strAppend_assoc,
      loadSuffix_skipPre "            img = sct.grab(" _ _ _ fns (by decide) (by decide)
        (by decide),
      loadSuffix_other _ _ _ fns (by decide) (by decide) (by decide),
      loadSuffix_other _ _ _ fns (by decide) (by decide) (by decide),
      loadSuffix_short _ _ _ fns (by decide)]
  · rw [if_neg hsb,
      loadSuffix_other _ _ _ fns (by decide) (by decide) (by decide),
      loadSuffix_other _ _ _ fns (by decide) (by decide) (by decide),
      loadSuffix_other _ _ _ fns (by decide) (by decide) (by decide),
      loadSuffix_short _ _ _ fns (by decide)]

/-! Facts about the per-rule lines. -/

theorem metaLine_take3 (f : BoxFunction) (himg : f.image = none) :
    (metaLine f).data.take 3 = fTag := by
  rw [metaLine_data f himg, List.take_append_of_le_length (by decide)]
  decide

theorem metaLine_ncTag (f : BoxFunction) (himg : f.image = none) :
    (metaLine f).data.take 3 ≠ cTag := by
  rw [metaLine_take3 f himg]
  decide

theorem metaLine_len (f : BoxFunction) (himg : f.image = none) :
    ¬ (metaLine f).data.length < 4 := by
  rw [metaLine_data f himg, List.length_append]
  have h1 : ("# f ".data).length = 4 := by decide
  omega

theorem intListTerm_safe (l : List Int) : termSafe (.lst (l.map .pint)) = true := by
  show termSafe (sbTerm (some l)) = true
  exact sbTerm_safe (some l)

theorem metaLine_eval (f : BoxFunction) (himg : f.image = none) (hn : safeStr f.name = true)
    (ht : safeStr f.type = true) :
    evalStrE ((metaLine f).data.drop 4) = some f.toVal := by
  rw [metaLine_data f himg, show (4 : Nat) = ("# f ".data).length from by decide, List.drop_left]
  have hsafe : ∀ t ∈ [PyTerm.atom (.pstr f.name), PyTerm.atom (.pstr f.type),
      PyTerm.lst (f.box.map .pint), PyTerm.atom .pnone], termSafe t = true := by
    intro t ht'
    simp at ht'
    rcases ht' with h | h | h | h <;> rw [h]
    · simpa [termSafe, scalarSafe] using hn
    · simpa [termSafe, scalarSafe] using ht
    · exact intListTerm_safe f.box
    · decide
  rw [evalStrE_boxcall _ _ _ _ [nlC] (by decide) hsafe]
  simp [BoxFunction.toVal, himg]

theorem loadSuffix_defLine (f : BoxFunction) (rest : List String) (d : PyVal)
    (fns : List PyVal) : loadSuffix (defLine f :: rest) d fns = loadSuffix rest d fns := by
  rw [defLine, strAppend_assoc]
  exact loadSuffix_skipPre "    def " _ _ d fns (by decide) (by decide) (by decide)

theorem cropLine_data (f : BoxFunction) :
    (cropLineT f).data = "cropped = self.img.crop([".data
      ++ ((intRepr (f.box.getD 0 0) ++ ", " ++ intRepr (f.box.getD 1 0) ++ ", "
        ++ intRepr (f.box.getD 0 0 + f.box.getD 2 0) ++ ", "
        ++ intRepr (f.box.getD 1 0 + f.box.getD 3 0) ++ "])\n").data) := by
  simp [cropLineT, data_append]

theorem loadSuffix_cropLine (f : BoxFunction) (rest : List String) (d : PyVal)
    (fns : List PyVal) : loadSuffix (cropLineT f :: rest) d fns = loadSuffix rest d fns := by
  apply loadSuffix_other
  · rw [cropLine_data, List.length_append]
    have h1 : ("cropped = self.img.crop([".data).length = 25 := by decide
    omega
  · rw [cropLine_data, List.take_append_of_le_length (by decide)]
    decide
  · rw [cropLine_data, List.take_append_of_le_length (by decide)]
    decide

/-! Walking the per-rule region of the artifact. -/

theorem metaAligned :
    ∀ (fns : List BoxFunction) (g : BoxFunction) (R : List String) (d : PyVal)
      (acc : List PyVal),
      (∀ f ∈ g :: fns, safeStr f.name = true ∧ safeStr f.type = true ∧ f.image = none) →
      loadSuffix (metaLine g :: cropLineT g :: ((fns.flatMap funcBlockT) ++ R)) d acc
        = loadSuffix (R.drop 1) d (acc ++ (g :: fns).map BoxFunction.toVal) := by
  intro fns
  induction fns with
  | nil =>
    intro g R d acc hsafe
    obtain ⟨hn, ht, himg⟩ := hsafe g (by simp)
    rw [loadSuffix_fHit _ _ _ _ _ (metaLine_len g himg) (metaLine_ncTag g himg)
      (metaLine_take3 g himg) (metaLine_eval g himg hn ht)]
    simp
  | cons h t ih =>
    intro g R d acc hsafe
    obtain ⟨hn, ht, himg⟩ := hsafe g (by simp)
    have hflat : (h :: t).flatMap funcBlockT
        = defLine h :: metaLine h :: cropLineT h :: t.flatMap funcBlockT := by
      simp [funcBlockT]
    rw [hflat]
    rw [loadSuffix_fHit _ _ _ _ _ (metaLine_len g himg) (metaLine_ncTag g himg)
      (metaLine_take3 g himg) (metaLine_eval g himg hn ht)]
    show loadSuffix (metaLine h :: cropLineT h :: (t.flatMap funcBlockT ++ R)) d
      (acc ++ [g.toVal]) = _
    rw [ih h R d (acc ++ [g.toVal]) (fun f hf => hsafe f (by simp at hf ⊢; tauto))]
    simp

theorem blocksWalk (g : BoxFunction) (fns : List BoxFunction) (R : List String) (d : PyVal)
    (acc : List PyVal)
    (hsafe : ∀ f ∈ g :: fns, safeStr f.name = true ∧ safeStr f.type = true ∧ f.image = none) :
    loadSuffix (((g :: fns).flatMap funcBlockT) ++ R) d acc
      = loadSuffix (R.drop 1) d (acc ++ (g :: fns).map BoxFunction.toVal) := by
  show loadSuffix (defLine g :: metaLine g :: cropLineT g :: (fns.flatMap funcBlockT ++ R))
    d acc = _
  rw [loadSuffix_defLine g _ d acc]
  exact metaAligned fns g R d acc hsafe

theorem tailWalk (f : BoxFunction) (d : PyVal) (fns : List PyVal) :
    loadSuffix ((kindBodyLines f ++ ["\n"]).drop 1) d fns = some (d, fns) := by
  by_cases h1 : f.type = "string"
  · rw [kindBodyLines, if_pos h1]
    show loadSuffix ["\n"] d fns = _
    rw [loadSuffix_short _ _ _ _ (by decide), loadSuffix_nil]
  · rw [kindBodyLines, if_neg h1]
    by_cases h2 : f.type = "number"
    · rw [if_pos h2]
      show loadSuffix ("        npcropped = numpy.array(im)[:, :, ::-1].copy()\n"
        :: "        npcropped = cv2.resize(npcropped, (0,0), fx=3, fy=3)\n"
        :: "        im = Image.fromarray(npcropped)\n"
        :: "        im = im.convert('L')\n"
        :: "        im = im.point(lambda x: 0 if x<100 else 255, '1')\n"
        :: "        return float(self.tool.image_to_string(im, lang=\"eng\", builder=pyocr.builders.TextBuilder()))\n"
        :: ["\n"]) d fns = _
      rw [loadSuffix_other _ _ _ _ (by decide) (by decide) (by decide),
        loadSuffix_other _ _ _ _ (by decide) (by decide) (by decide),
        loadSuffix_other _ _ _ _ (by decide) (by decide) (by decide),
        loadSuffix_other _ _ _ _ (by decide) (by decide) (by decide),
        loadSuffix_other _ _ _ _ (by decide) (by decide) (by decide),
        loadSuffix_other _ _ _ _ (by decide) (by decide) (by decide),
        loadSuffix_short _ _ _ _ (by decide), loadSuffix_nil]
    · rw [if_neg h2]
      by_cases h3 : f.type = "position"
      · rw [if_pos h3]
        show loadSuffix ("        cropped = numpy.array(cropped)[:, :, ::-1].copy()\n"
          :: "        \n"
          :: "        res = cv2.matchTemplate(cropped, image, cv2.TM_CCOEFF_NORMED)\n"
          :: "        threshold = 0.8\n"
          :: "        loc = np.where( res >= threshold)\n"
          :: "        return loc\n"
          :: "\n" :: ["\n"]) d fns = _
        rw [loadSuffix_other _ _ _ _ (by decide) (by decide) (by decide),
          loadSuffix_other _ _ _ _ (by decide) (by decide) (by decide),
          loadSuffix_other _ _ _ _ (by decide) (by decide) (by decide),
          loadSuffix_other _ _ _ _ (by decide) (by decide) (by decide),
          loadSuffix_other _ _ _ _ (by decide) (by decide) (by decide),
          loadSuffix_other _ _ _ _ (by decide) (by decide) (by decide),
          loadSuffix_short _ _ _ _ (by decide), loadSuffix_short _ _ _ _ (by decide),
          loadSuffix_nil]
      · rw [if_neg h3]
        show loadSuffix [] d fns = _
        exact loadSuffix_nil d fns

theorem funcLines_eq (f : BoxFunction) (h : 4 ≤ f.box.length) :
    funcLines f = some (funcBlockT f) := by
  cases hb : f.box with
  | nil => rw [hb] at h; simp at h
  | cons a t1 =>
    cases t1 with
    | nil => rw [hb] at h; simp at h
    | cons b t2 =>
      cases t2 with
      | nil => rw [hb] at h; simp at h
      | cons c t3 =>
        cases t3 with
        | nil => rw [hb] at h; simp at h
        | cons e t4 => simp [funcLines, hb, funcBlockT]

theorem mapM_funcLines :
    ∀ fns : List BoxFunction, (∀ f ∈ fns, 4 ≤ f.box.length) →
      fns.mapM funcLines = some (fns.map funcBlockT) := by
  intro fns
  induction fns with
  | nil => intro _; rfl
  | cons f t ih =>
    intro hbox
    rw [List.mapM_cons, funcLines_eq f (hbox f (by simp)), ih (fun x hx => hbox x (by simp [hx]))]
    rfl

set_option maxHeartbeats 1000000 in
theorem createLoad (name : String) (sb : Option (List Int)) (dir : String) (g : BoxFunction)
    (fns : List BoxFunction) (hdir : safeStr dir = true)
    (hsafe : ∀ f ∈ g :: fns, safeStr f.name = true ∧ safeStr f.type = true ∧ f.image = none)
    (hbox : ∀ f ∈ g :: fns, 4 ≤ f.box.length) :
    (createLibraryLines name sb dir (g :: fns)).bind loadLibrary
      = some (.term (.atom (.pstr dir)), (g :: fns).map BoxFunction.toVal) := by
  obtain ⟨last, hlast⟩ : ∃ l, (g :: fns).getLast? = some l :=
    ⟨(g :: fns).getLast (by simp), List.getLast?_eq_getLast _ _⟩
  rw [createLibraryLines, hlast, mapM_funcLines _ hbox]
  show loadLibrary (headerLines name sb dir ++ ((g :: fns).map funcBlockT).flatMap id
    ++ kindBodyLines last ++ ["\n"]) = _
  rw [loadLibrary_eq_suffix]
  rw [show (headerLines name sb dir ++ ((g :: fns).map funcBlockT).flatMap id
      ++ kindBodyLines last ++ ["\n"])
    = headerLines name sb dir ++ (((g :: fns).map funcBlockT).flatMap id
      ++ (kindBodyLines last ++ ["\n"])) from by simp [List.append_assoc]]
  rw [List.drop_append_of_le_length (by simp [headerLines])]
  rw [headerWalk name sb dir _ pvNone [] hdir]
  rw [show ((g :: fns).map funcBlockT).flatMap id = (g :: fns).flatMap funcBlockT from by
    simp [List.flatMap_map]]
  rw [blocksWalk g fns (kindBodyLines last ++ ["\n"]) _ [] hsafe]
  rw [tailWalk last]
  simp

/-! Which emitted lines carry the function-level tag. -/

theorem isFTagLine_append (pre tail : String) (h3 : 3 ≤ pre.data.length)
    (hpre : pre.data.take 3 ≠ fTag) : isFTagLine (pre ++ tail) = false := by
  unfold isFTagLine
  rw [data_append, List.take_append_of_le_length h3]
  simpa using hpre

theorem metaLine_isFTag (f : BoxFunction) : isFTagLine (metaLine f) = true := by
  simp [isFTagLine, metaLine, data_append, fTag]

theorem defLine_isFTag (f : BoxFunction) : isFTagLine (defLine f) = false := by
  simp [isFTagLine, defLine, data_append, fTag]

theorem cropLine_isFTag (f : BoxFunction) : isFTagLine (cropLineT f) = false := by
  unfold isFTagLine
  rw [cropLine_data, List.take_append_of_le_length (by decide)]
  decide

theorem headerLines_filter_fTag (name : String) (sb : Option (List Int)) (dir : String) :
    (headerLines name sb dir).filter isFTagLine = [] := by
  by_cases hsb : pyTruthySB sb <;>
    simp [headerLines, hsb, isFTagLine, data_append, fTag]

theorem kindBody_filter_fTag (f : BoxFunction) :
    (kindBodyLines f).filter isFTagLine = [] := by
  unfold kindBodyLines
  by_cases h1 : f.type = "string"
  · rw [if_pos h1]
    simp [stringBodyLines, isFTagLine, fTag]
  · rw [if_neg h1]
    by_cases h2 : f.type = "number"
    · rw [if_pos h2]
      simp [numberBodyLines, isFTagLine, fTag]
    · rw [if_neg h2]
      by_cases h3 : f.type = "position"
      · rw [if_pos h3]
        simp [positionBodyLines, isFTagLine, data_append, fTag]
      · rw [if_neg h3]
        simp

theorem blocks_filter_fTag :
    ∀ fns : List BoxFunction,
      (fns.flatMap funcBlockT).filter isFTagLine = fns.map metaLine := by
  intro fns
  induction fns with
  | nil => rfl
  | cons f t ih =>
    show ((funcBlockT f ++ t.flatMap funcBlockT).filter isFTagLine) = _
    rw [List.filter_append, ih]
    show (List.filter isFTagLine [defLine f, metaLine f, cropLineT f]) ++ _ = _
    rw [List.filter_cons, List.filter_cons, List.filter_cons]
    rw [defLine_isFTag, metaLine_isFTag, cropLine_isFTag]
    simp

theorem headerLines_length (name : String) (sb : Option (List Int)) (dir : String) :
    (headerLines name sb dir).length = 27 := by
  simp [headerLines]

theorem flatBlocks_length (fns : List BoxFunction) :
    (fns.flatMap funcBlockT).length = 3 * fns.length := by
  induction fns with
  | nil => rfl
  | cons f t ih =>
    show (funcBlockT f ++ t.flatMap funcBlockT).length = _
    rw [List.length_append, ih]
    show 3 + 3 * t.length = 3 * (t.length + 1)
    omega

theorem flatBlocks_get (fns : List BoxFunction) :
    ∀ (i : Nat) (f : BoxFunction), fns[i]? = some f →
      (fns.flatMap funcBlockT)[3 * i]? = some (defLine f)
      ∧ (fns.flatMap funcBlockT)[3 * i + 1]? = some (metaLine f)
      ∧ (fns.flatMap funcBlockT)[3 * i + 2]? = some (cropLineT f) := by
  induction fns with
  | nil =>
    intro i f h
    simp at h
  | cons g t ih =>
    intro i f h
    cases i with
    | zero =>
      simp at h
      subst h
      refine ⟨?_, ?_, ?_⟩ <;> simp [List.flatMap_cons, funcBlockT]
    | succ j =>
      have ht : t[j]? = some f := by simpa using h
      have harith : ∀ k : Nat, 3 * (j + 1) + k = 3 + (3 * j + k) := by omega
      have hsplit : ∀ k : Nat, ((g :: t).flatMap funcBlockT)[3 * (j + 1) + k]?
          = (t.flatMap funcBlockT)[3 * j + k]? := by
        intro k
        show (funcBlockT g ++ t.flatMap funcBlockT)[3 * (j + 1) + k]? = _
        rw [List.getElem?_append_right (by simp [funcBlockT]; omega)]
        congr 1
        simp [funcBlockT]
        omega
      obtain ⟨h1, h2, h3⟩ := ih j f ht
      refine ⟨?_, ?_, ?_⟩
      · rw [show 3 * (j + 1) = 3 * (j + 1) + 0 from by omega, hsplit 0,
          show 3 * j + 0 = 3 * j from by omega]
        exact h1
      · rw [hsplit 1]
        exact h2
      · rw [hsplit 2]
        exact h3

theorem createLibraryLines_some (name : String) (sb : Option (List Int)) (dir : String)
    (g : BoxFunction) (fns : List BoxFunction) (last : BoxFunction)
    (hlast : (g :: fns).getLast? = some last) (hbox : ∀ f ∈ g :: fns, 4 ≤ f.box.length) :
    createLibraryLines name sb dir (g :: fns)
      = some (headerLines name sb dir ++ (g :: fns).flatMap funcBlockT
          ++ kindBodyLines last ++ ["\n"]) := by
  rw [createLibraryLines, hlast, mapM_funcLines _ hbox]
  show some (headerLines name sb dir ++ ((g :: fns).map funcBlockT).flatMap id
    ++ kindBodyLines last ++ ["\n"]) = _
  rw [show ((g :: fns).map funcBlockT).flatMap id = (g :: fns).flatMap funcBlockT from by
    simp [List.flatMap_map]]

/-- C5 (corrected): `Library.__init__` performs no duplicate-name check — it
stores all four arguments exactly as given, so a `Library` whose rule
sequence contains two rules with the same name is constructed successfully;
no `DuplicateName` error exists in the code. -/
theorem C5_corrected (destination : String) (screen_box : Option (List Int))
    (directory : String) (functions : List BoxFunction) :
    (Library.init destination screen_box directory functions).destination = destination
    ∧ (Library.init destination screen_box directory functions).screen_box = screen_box
    ∧ (Library.init destination screen_box directory functions).directory = directory
    ∧ (Library.init destination screen_box directory functions).functions = functions :=
  ⟨rfl, rfl, rfl, rfl⟩

/-- C5 counterexample: constructing a `Library` with two rules both named
`price` succeeds and stores both rules, refuting the claim that such a
construction fails with `DuplicateName`. -/
theorem C5_counterexample :
    (Library.init "./lib" none "out"
      [⟨"price", "number", [1, 2, 3, 4], none⟩,
       ⟨"price", "string", [5, 6, 7, 8], none⟩]).functions
      = [⟨"price", "number", [1, 2, 3, 4], none⟩, ⟨"price", "string", [5, 6, 7, 8], none⟩]
    ∧ (⟨"price", "number", [1, 2, 3, 4], none⟩ : BoxFunction).name
      = (⟨"price", "string", [5, 6, 7, 8], none⟩ : BoxFunction).name :=
  ⟨rfl, rfl⟩

/-- C6 (code bug): `CreateView.onclicked_stop` only prints and leaves the
state unchanged — in particular it never clears `capture_screen` — so after a
start the loop guard `while self.capture_screen` still holds after stop is
clicked, and the next tick begins; the session never transitions to Idle. -/
theorem C6_bug (s : CVState) :
    onclicked_stop s = s ∧ loopGuard (onclicked_stop (onclicked_start s)) = true :=
  ⟨rfl, rfl⟩

/-- C7 (code bug): the capture loop in `onclicked_start` reads the frequency
spin-box value into `speed` and never uses it, and its body contains no timer
wait: the produced action trace is independent of the configured period and
contains no sleep action, so the period does not determine the tick schedule
and the loop busy-waits rather than blocking on a timer. -/
theorem C7_bug (box : Option (List Int)) (speed speed' : Nat) (folder : String)
    (stamps : List String) :
    captureLoopActions box speed folder stamps = captureLoopActions box speed' folder stamps
    ∧ (captureLoopActions box speed folder stamps).filter isSleepA = [] := by
  refine ⟨rfl, ?_⟩
  induction stamps with
  | nil => rfl
  | cons st t ih =>
    show ((tickActions box folder st ++ captureLoopActions box speed folder t).filter isSleepA)
      = []
    rw [List.filter_append, ih]
    rfl

/-- C9 (confirmed): encoding a library with an empty rule sequence raises
(the per-kind body emission dereferences the loop variable after the loop),
modelled as `none`; with a nonempty rule sequence (and well-formed boxes) the
encoder produces an artifact, so nonemptiness is an implicit precondition. -/
theorem C9_empty (name : String) (sb : Option (List Int)) (dir : String) :
    createLibraryLines name sb dir [] = none
    ∧ ∀ (g : BoxFunction) (fns : List BoxFunction), (∀ f ∈ g :: fns, 4 ≤ f.box.length) →
        (createLibraryLines name sb dir (g :: fns)).isSome = true := by
  refine ⟨rfl, ?_⟩
  intro g fns hbox
  obtain ⟨last, hlast⟩ : ∃ l, (g :: fns).getLast? = some l :=
    ⟨(g :: fns).getLast (by simp), List.getLast?_eq_getLast _ _⟩
  rw [createLibraryLines_some name sb dir g fns last hlast hbox]
  rfl

/-- C9 witness: the encoder fails on the empty rule list and succeeds on a
concrete one-rule library. -/
theorem C9_witness :
    createLibraryLines "L" none "out" [] = none
    ∧ (createLibraryLines "L" none "out" [⟨"a", "string", [1, 2, 3, 4], none⟩]).isSome
      = true :=
  ⟨(C9_empty "L" none "out").1,
    (C9_empty "L" none "out").2 ⟨"a", "string", [1, 2, 3, 4], none⟩ [] (by decide)⟩

/-- C2 (corrected): the class-level payload is parsed by safe literal
evaluation, which rejects every call expression; but each function-level
payload is passed to general expression evaluation, which does evaluate
constructor-call expressions and appends the resulting object; untagged
lines are skipped without interpretation. -/
theorem C2_corrected :
    (∀ (cs : List Char) (e : PyExpr), pyParse cs = some e → isCallE e = true →
      literalEval cs = none)
    ∧ (∀ (l : String) (rest : List String) (d : PyVal) (fns : List PyVal) (v : PyVal),
        ¬ l.data.length < 4 → l.data.take 3 ≠ cTag → l.data.take 3 = fTag →
        evalStrE (l.data.drop 4) = some v →
        loadSuffix (l :: rest) d fns = loadSuffix (rest.drop 2) d (fns ++ [v]))
    ∧ (∀ (l : String) (rest : List String) (d : PyVal) (fns : List PyVal),
        ¬ l.data.length < 4 → l.data.take 3 ≠ cTag → l.data.take 3 ≠ fTag →
        loadSuffix (l :: rest) d fns = loadSuffix rest d fns) := by
  refine ⟨?_, ?_, ?_⟩
  · intro cs e hp hc
    unfold literalEval
    rw [hp]
    simp [hc]
  · intro l rest d fns v h4 hc hf hv
    exact loadSuffix_fHit l rest d fns v h4 hc hf hv
  · intro l rest d fns h4 hc hf
    exact loadSuffix_other l rest d fns h4 hc hf

set_option maxRecDepth 100000 in
/-- C2 witness: the safe literal evaluator rejects a concrete constructor
call; the decoder's function-level path accepts the same call and appends
the constructed object; an untagged line is skipped. -/
theorem C2_witness :
    literalEval ("BoxFunction('a', 'string', [1, 2], None)\n").data = none
    ∧ loadSuffix ["# f BoxFunction('a', 'string', [1, 2], None)\n", "x1", "x2", "x3"] pvNone []
      = loadSuffix (["x1", "x2", "x3"].drop 2) pvNone
          ([] ++ [PyVal.pboxfn (.atom (.pstr "a")) (.atom (.pstr "string"))
            (.lst [.pint 1, .pint 2]) (.atom .pnone)])
    ∧ loadSuffix ["not a tag line\n"] pvNone [] = loadSuffix [] pvNone [] := by
  refine ⟨?_, ?_, ?_⟩
  · exact C2_corrected.1 _ (PyExpr.call "BoxFunction"
      [.atom (.pstr "a"), .atom (.pstr "string"), .lst [.pint 1, .pint 2], .atom .pnone])
      (by decide) (by decide)
  · exact C2_corrected.2.1 "# f BoxFunction('a', 'string', [1, 2], None)\n"
      ["x1", "x2", "x3"] pvNone []
      (PyVal.pboxfn (.atom (.pstr "a")) (.atom (.pstr "string"))
        (.lst [.pint 1, .pint 2]) (.atom .pnone))
      (by decide) (by decide) (by decide) (by decide)
  · exact C2_corrected.2.2 "not a tag line\n" [] pvNone [] (by decide) (by decide) (by decide)

set_option maxRecDepth 100000 in
/-- C2 counterexample: decoding an artifact whose function-level payload is a
constructor call succeeds (the payload is evaluated, not literal-parsed),
while safe literal evaluation of that same payload fails — so decode does
not use safe literal evaluation only. -/
theorem C2_counterexample :
    loadLibrary ["\n", "\n", "\n", "# f BoxFunction('a', 'number', [1, 2, 3, 4], None)\n"]
      = some (pvNone, [PyVal.pboxfn (.atom (.pstr "a")) (.atom (.pstr "number"))
          (.lst [.pint 1, .pint 2, .pint 3, .pint 4]) (.atom .pnone)])
    ∧ literalEval ("BoxFunction('a', 'number', [1, 2, 3, 4], None)\n").data = none := by
  decide

/-- C3 (corrected): the decoder performs no validation of the extraction
kind — a function-level record whose kind lies outside the closed set
`string` / `number` / `position` is evaluated and appended like any other,
and decoding succeeds; no `UnknownKind` failure exists in the code. -/
theorem C3_corrected (f : BoxFunction) (hn : safeStr f.name = true)
    (ht : safeStr f.type = true) (himg : f.image = none)
    (hkind : f.type ∉ (["string", "number", "position"] : List String)) :
    loadLibrary ["\n", "\n", "\n", metaLine f] = some (pvNone, [f.toVal]) := by
  rw [loadLibrary_eq_suffix]
  show loadSuffix [metaLine f] pvNone [] = _
  rw [loadSuffix_fHit _ _ _ _ _ (metaLine_len f himg) (metaLine_ncTag f himg)
    (metaLine_take3 f himg) (metaLine_eval f himg hn ht)]
  show loadSuffix [] pvNone [f.toVal] = _
  exact loadSuffix_nil _ _

/-- C3 witness: a rule of kind `banana` — outside the closed set — decodes
successfully into the corresponding object. -/
theorem C3_witness :
    loadLibrary ["\n", "\n", "\n", metaLine ⟨"a", "banana", [1, 2, 3, 4], none⟩]
      = some (pvNone, [BoxFunction.toVal ⟨"a", "banana", [1, 2, 3, 4], none⟩]) :=
  C3_corrected ⟨"a", "banana", [1, 2, 3, 4], none⟩ (by decide) (by decide) rfl (by decide)

set_option maxRecDepth 100000 in
/-- C3 counterexample: an artifact naming the extraction kind `banana`
decodes successfully — the decoder returns a reconstructed rule list instead
of failing with `UnknownKind`. -/
theorem C3_counterexample :
    loadLibrary ["\n", "\n", "\n", "# f BoxFunction('a', 'banana', [1, 2, 3, 4], None)\n"]
      = some (pvNone, [PyVal.pboxfn (.atom (.pstr "a")) (.atom (.pstr "banana"))
          (.lst [.pint 1, .pint 2, .pint 3, .pint 4]) (.atom .pnone)]) := by
  decide

/-- C10 (confirmed): the decoder starts scanning at line index 3 (the first
three lines never affect the result); after a class-level tagged line whose
payload parses, it resumes nine lines later — the eight-line window after
the tag is never examined; after a function-level tagged line it resumes
three lines later, skipping the two lines after the tag. -/
theorem C10_scan :
    (∀ (a b c a' b' c' : String) (rest : List String),
      loadLibrary (a :: b :: c :: rest) = loadLibrary (a' :: b' :: c' :: rest))
    ∧ (∀ (l : String) (w rest : List String) (d : PyVal) (fns : List PyVal) (v dv : PyVal),
        ¬ l.data.length < 4 → l.data.take 3 = cTag →
        literalEval (l.data.drop 4) = some v → pySubscriptStr v "directory" = some dv →
        w.length = 8 →
        loadSuffix (l :: (w ++ rest)) d fns = loadSuffix rest dv fns)
    ∧ (∀ (l : String) (u rest : List String) (d : PyVal) (fns : List PyVal) (v : PyVal),
        ¬ l.data.length < 4 → l.data.take 3 ≠ cTag → l.data.take 3 = fTag →
        evalStrE (l.data.drop 4) = some v → u.length = 2 →
        loadSuffix (l :: (u ++ rest)) d fns = loadSuffix rest d (fns ++ [v])) := by
  refine ⟨?_, ?_, ?_⟩
  · intro a b c a' b' c' rest
    rw [loadLibrary_eq_suffix, loadLibrary_eq_suffix]
    rfl
  · intro l w rest d fns v dv h4 hc hv hdv hw
    rw [loadSuffix_cHit l _ d fns v dv h4 hc hv hdv, ← hw, List.drop_left]
  · intro l u rest d fns v h4 hc hf hv hu
    rw [loadSuffix_fHit l _ d fns v h4 hc hf hv, ← hu, List.drop_left]

set_option maxRecDepth 100000 in
/-- C10 witness: concrete instances — the first three lines are ignored, an
eight-line window after a class tag is skipped with the directory recorded,
and a two-line window after a function tag is skipped with the object
appended. -/
theorem C10_witness :
    loadLibrary ["\n", "\n", "\n"] = loadLibrary ["a", "b", "c"]
    ∧ loadSuffix ("# c \x7b'directory': 'd'\x7d\n"
        :: (["1", "2", "3", "4", "5", "6", "7", "8"] ++ ["x"])) pvNone []
      = loadSuffix ["x"] (PyVal.term (.atom (.pstr "d"))) []
    ∧ loadSuffix ("# f BoxFunction('a', 'string', [1, 2], None)\n" :: (["1", "2"] ++ ["y"]))
        pvNone []
      = loadSuffix ["y"] pvNone ([] ++ [PyVal.pboxfn (.atom (.pstr "a")) (.atom (.pstr "string"))
          (.lst [.pint 1, .pint 2]) (.atom .pnone)]) :=
  ⟨C10_scan.1 "\n" "\n" "\n" "a" "b" "c" [],
    C10_scan.2.1 "# c \x7b'directory': 'd'\x7d\n" ["1", "2", "3", "4", "5", "6", "7", "8"]
      ["x"] pvNone [] (PyVal.pdict [(.pstr "directory", .atom (.pstr "d"))])
      (PyVal.term (.atom (.pstr "d")))
      (by decide) (by decide) (by decide) (by decide) (by decide),
    C10_scan.2.2 "# f BoxFunction('a', 'string', [1, 2], None)\n" ["1", "2"] ["y"] pvNone []
      (PyVal.pboxfn (.atom (.pstr "a")) (.atom (.pstr "string"))
        (.lst [.pint 1, .pint 2]) (.atom .pnone))
      (by decide) (by decide) (by decide) (by decide) (by decide)⟩

/-- C1 (corrected): for every library with a nonempty rule sequence, a
directory free of quote, backslash and line-break characters, rules whose
names and kinds are likewise safe, four-component boxes and no template
image, decoding the encoded artifact returns exactly the pair
`(outputDirectory, rules)` — the directory string and, in original order,
one object per rule carrying exactly that rule's name, kind, box and `None`
template.  The capture region is embedded and parsed during decoding but is
not part of the result. -/
theorem C1_corrected (name : String) (sb : Option (List Int)) (dir : String)
    (g : BoxFunction) (fns : List BoxFunction) (hdir : safeStr dir = true)
    (hsafe : ∀ f ∈ g :: fns, safeStr f.name = true ∧ safeStr f.type = true ∧ f.image = none)
    (hbox : ∀ f ∈ g :: fns, 4 ≤ f.box.length) :
    (createLibraryLines name sb dir (g :: fns)).bind loadLibrary
      = some (.term (.atom (.pstr dir)), (g :: fns).map BoxFunction.toVal) :=
  createLoad name sb dir g fns hdir hsafe hbox

/-- C1 witness: concrete round trip for a one-rule library with a capture
region — decode returns the directory and the rule object. -/
theorem C1_witness :
    (createLibraryLines "Lib" (some [1, 2, 3, 4]) "out"
      [⟨"score", "number", [10, 10, 100, 40], none⟩]).bind loadLibrary
      = some (.term (.atom (.pstr "out")),
          [⟨"score", "number", [10, 10, 100, 40], none⟩].map BoxFunction.toVal) :=
  C1_corrected "Lib" (some [1, 2, 3, 4]) "out" ⟨"score", "number", [10, 10, 100, 40], none⟩ []
    (by decide) (by decide) (by decide)

set_option maxRecDepth 400000 in
/-- C1 counterexample: two libraries that differ only in their capture
region decode to the same result, so decoding cannot reproduce
`captureRegion`; and a library whose rule carries a template-image path does
not decode at all (the unquoted path makes the payload evaluation fail), so
the triple is not reproduced field-for-field for every valid library. -/
theorem C1_counterexample :
    (createLibraryLines "Lib" (some [1, 2, 3, 4]) "out"
      [⟨"a", "string", [1, 2, 3, 4], none⟩]).bind loadLibrary
      = (createLibraryLines "Lib" (some [5, 6, 7, 8]) "out"
        [⟨"a", "string", [1, 2, 3, 4], none⟩]).bind loadLibrary
    ∧ (some [1, 2, 3, 4] : Option (List Int)) ≠ some [5, 6, 7, 8]
    ∧ (createLibraryLines "Lib" none "out"
        [⟨"a", "position", [1, 2, 3, 4], some "t.png"⟩]).bind loadLibrary = none := by
  refine ⟨by decide, by decide, by decide⟩

/-- C4 (corrected): the encoder emits an extraction body only once, after
the rule loop, for the final rule; when that rule's kind is `number` the
body is the numeric pipeline in this order — edge enhancement, BGR copy, 3x
upscaling, grayscale conversion, binary thresholding at the fixed cutoff
100 (not the midpoint of the 0-255 range), then OCR text recognition parsed
as a floating-point value (raising an error when the text does not parse). -/
theorem C4_corrected (name : String) (sb : Option (List Int)) (dir : String)
    (g : BoxFunction) (fns : List BoxFunction) (last : BoxFunction)
    (hlast : (g :: fns).getLast? = some last) (hnum : last.type = "number")
    (hbox : ∀ f ∈ g :: fns, 4 ≤ f.box.length) :
    createLibraryLines name sb dir (g :: fns)
      = some (headerLines name sb dir ++ (g :: fns).flatMap funcBlockT
          ++ numberBodyLines ++ ["\n"])
    ∧ numberBodyLines
      = ["        im = cropped.filter(ImageFilter.EDGE_ENHANCE_MORE)\n",
         "        npcropped = numpy.array(im)[:, :, ::-1].copy()\n",
         "        npcropped = cv2.resize(npcropped, (0,0), fx=3, fy=3)\n",
         "        im = Image.fromarray(npcropped)\n",
         "        im = im.convert('L')\n",
         threshLine 100,
         "        return float(self.tool.image_to_string(im, lang=\"eng\", builder=pyocr.builders.TextBuilder()))\n"] := by
  refine ⟨?_, by decide⟩
  rw [createLibraryLines_some name sb dir g fns last hlast hbox, kindBodyLines,
    if_neg (by rw [hnum]; decide), if_pos hnum]

/-- C4 witness: concrete one-rule number library — the artifact carries the
numeric pipeline with cutoff 100 after the rule block. -/
theorem C4_witness :
    createLibraryLines "L" none "out" [⟨"a", "number", [1, 2, 3, 4], none⟩]
      = some (headerLines "L" none "out"
          ++ [⟨"a", "number", [1, 2, 3, 4], none⟩].flatMap funcBlockT
          ++ numberBodyLines ++ ["\n"])
    ∧ numberBodyLines
      = ["        im = cropped.filter(ImageFilter.EDGE_ENHANCE_MORE)\n",
         "        npcropped = numpy.array(im)[:, :, ::-1].copy()\n",
         "        npcropped = cv2.resize(npcropped, (0,0), fx=3, fy=3)\n",
         "        im = Image.fromarray(npcropped)\n",
         "        im = im.convert('L')\n",
         threshLine 100,
         "        return float(self.tool.image_to_string(im, lang=\"eng\", builder=pyocr.builders.TextBuilder()))\n"] :=
  C4_corrected "L" none "out" ⟨"a", "number", [1, 2, 3, 4], none⟩ []
    ⟨"a", "number", [1, 2, 3, 4], none⟩ rfl rfl (by decide)

set_option maxRecDepth 400000 in
/-- C4 counterexample: in a two-rule library whose first rule is of kind
`number` (and last of kind `string`), the artifact contains no numeric
thresholding line at all — the number rule receives no body; and in a
one-rule number library the thresholding cutoff emitted is 100, not the
midpoint of the 0-255 range (neither 127 nor 128 appears). -/
theorem C4_counterexample :
    ((createLibraryLines "L" none "out"
      [⟨"a", "number", [1, 2, 3, 4], none⟩, ⟨"b", "string", [1, 2, 3, 4], none⟩]).getD []).contains
        (threshLine 100) = false
    ∧ ((createLibraryLines "L" none "out" [⟨"a", "number", [1, 2, 3, 4], none⟩]).getD []).contains
        (threshLine 100) = true
    ∧ ((createLibraryLines "L" none "out" [⟨"a", "number", [1, 2, 3, 4], none⟩]).getD []).contains
        (threshLine 127) = false
    ∧ ((createLibraryLines "L" none "out" [⟨"a", "number", [1, 2, 3, 4], none⟩]).getD []).contains
        (threshLine 128) = false := by
  refine ⟨by decide, by decide, by decide, by decide⟩

/-- C8 (corrected): for each rule, in order, the encoder emits exactly one
function-level metadata line (the tagged lines of the artifact are exactly
the rules' metadata lines, in rule order); but each metadata line
immediately FOLLOWS its rule's generated operation header and is immediately
followed by the rule's crop line — the metadata line does not precede the
operation; the per-kind extraction body is emitted only once, after the
final rule. -/
theorem C8_corrected (name : String) (sb : Option (List Int)) (dir : String)
    (g : BoxFunction) (fns : List BoxFunction) (last : BoxFunction)
    (hlast : (g :: fns).getLast? = some last) (hbox : ∀ f ∈ g :: fns, 4 ≤ f.box.length) :
    createLibraryLines name sb dir (g :: fns)
      = some (headerLines name sb dir ++ (g :: fns).flatMap funcBlockT
          ++ kindBodyLines last ++ ["\n"])
    ∧ (headerLines name sb dir ++ (g :: fns).flatMap funcBlockT ++ kindBodyLines last
        ++ ["\n"]).filter isFTagLine = (g :: fns).map metaLine
    ∧ ∀ (i : Nat) (f : BoxFunction), (g :: fns)[i]? = some f →
        (headerLines name sb dir ++ (g :: fns).flatMap funcBlockT ++ kindBodyLines last
          ++ ["\n"])[27 + 3 * i]? = some (defLine f)
        ∧ (headerLines name sb dir ++ (g :: fns).flatMap funcBlockT ++ kindBodyLines last
          ++ ["\n"])[27 + 3 * i + 1]? = some (metaLine f)
        ∧ (headerLines name sb dir ++ (g :: fns).flatMap funcBlockT ++ kindBodyLines last
          ++ ["\n"])[27 + 3 * i + 2]? = some (cropLineT f) := by
  refine ⟨createLibraryLines_some name sb dir g fns last hlast hbox, ?_, ?_⟩
  · rw [List.filter_append, List.filter_append, List.filter_append,
      headerLines_filter_fTag, blocks_filter_fTag, kindBody_filter_fTag]
    simp [isFTagLine, fTag]
  · intro i f hif
    have hidx := flatBlocks_get (g :: fns) i f hif
    have hlen27 := headerLines_length name sb dir
    have hblen := flatBlocks_length (g :: fns)
    have hi : i < (g :: fns).length := by
      by_contra hge
      rw [List.getElem?_eq_none_iff.mpr (by omega)] at hif
      cases hif
    have hassoc : headerLines name sb dir ++ (g :: fns).flatMap funcBlockT
        ++ kindBodyLines last ++ ["\n"]
        = headerLines name sb dir ++ ((g :: fns).flatMap funcBlockT
          ++ (kindBodyLines last ++ ["\n"])) := by
      simp [List.append_assoc]
    have hstep : ∀ k : Nat, k < 3 →
        (headerLines name sb dir ++ (g :: fns).flatMap funcBlockT ++ kindBodyLines last
          ++ ["\n"])[27 + 3 * i + k]?
        = ((g :: fns).flatMap funcBlockT)[3 * i + k]? := by
      intro k hk
      rw [hassoc, List.getElem?_append_right (by omega)]
      rw [List.getElem?_append_left (by omega)]
      congr 1
      omega
    refine ⟨?_, ?_, ?_⟩
    · rw [show 27 + 3 * i = 27 + 3 * i + 0 from by omega, hstep 0 (by omega)]
      rw [show 3 * i + 0 = 3 * i from by omega]
      exact hidx.1
    · rw [hstep 1 (by omega)]
      exact hidx.2.1
    · rw [hstep 2 (by omega)]
      exact hidx.2.2

set_option maxRecDepth 400000 in
/-- C8 witness: in a concrete two-rule library the tagged lines are exactly
the two metadata lines in order, and the second rule's operation header,
metadata line and crop line sit at indices 30, 31 and 32. -/
theorem C8_witness :
    (headerLines "L" none "out"
        ++ [(⟨"a", "string", [1, 2, 3, 4], none⟩ : BoxFunction),
            ⟨"b", "string", [5, 6, 7, 8], none⟩].flatMap funcBlockT
        ++ kindBodyLines ⟨"b", "string", [5, 6, 7, 8], none⟩ ++ ["\n"]).filter isFTagLine
      = [(⟨"a", "string", [1, 2, 3, 4], none⟩ : BoxFunction),
          ⟨"b", "string", [5, 6, 7, 8], none⟩].map metaLine
    ∧ (headerLines "L" none "out"
        ++ [(⟨"a", "string", [1, 2, 3, 4], none⟩ : BoxFunction),
            ⟨"b", "string", [5, 6, 7, 8], none⟩].flatMap funcBlockT
        ++ kindBodyLines ⟨"b", "string", [5, 6, 7, 8], none⟩ ++ ["\n"])[27 + 3 * 1]?
      = some (defLine ⟨"b", "string", [5, 6, 7, 8], none⟩)
    ∧ (headerLines "L" none "out"
        ++ [(⟨"a", "string", [1, 2, 3, 4], none⟩ : BoxFunction),
            ⟨"b", "string", [5, 6, 7, 8], none⟩].flatMap funcBlockT
        ++ kindBodyLines ⟨"b", "string", [5, 6, 7, 8], none⟩ ++ ["\n"])[27 + 3 * 1 + 1]?
      = some (metaLine ⟨"b", "string", [5, 6, 7, 8], none⟩) := by
  have T := C8_corrected "L" none "out" ⟨"a", "string", [1, 2, 3, 4], none⟩
    [⟨"b", "string", [5, 6, 7, 8], none⟩] ⟨"b", "string", [5, 6, 7, 8], none⟩
    (by decide) (by decide)
  have T2 := T.2.2 1 ⟨"b", "string", [5, 6, 7, 8], none⟩ (by decide)
  exact ⟨T.2.1, T2.1, T2.2.1⟩

set_option maxRecDepth 400000 in
/-- C8 counterexample: in the encoded two-rule artifact, the first rule's
metadata line (index 28) is immediately preceded by the operation header
(index 27) and immediately followed by the crop line (index 29), which is
not an operation — refuting that each metadata line immediately precedes
the operation implementing its rule. -/
theorem C8_counterexample :
    ((createLibraryLines "L" none "out"
      [⟨"a", "string", [1, 2, 3, 4], none⟩, ⟨"b", "string", [5, 6, 7, 8], none⟩]).getD [])[27]?
      = some "    def a(self):\n"
    ∧ ((createLibraryLines "L" none "out"
      [⟨"a", "string", [1, 2, 3, 4], none⟩, ⟨"b", "string", [5, 6, 7, 8], none⟩]).getD [])[28]?
      = some "# f BoxFunction('a', 'string', [1, 2, 3, 4], None)\n"
    ∧ ((createLibraryLines "L" none "out"
      [⟨"a", "string", [1, 2, 3, 4], none⟩, ⟨"b", "string", [5, 6, 7, 8], none⟩]).getD [])[29]?
      = some "cropped = self.img.crop([1, 2, 4, 6])\n"
    ∧ isDefHeadLine "cropped = self.img.crop([1, 2, 4, 6])\n" = false
    ∧ isDefHeadLine "    def a(self):\n" = true := by
  refine ⟨by decide, by decide, by decide, by decide, by decide⟩
